import Mathlib

/-!
# Theia: field-of-view camera model and view-graph filter

A shallow embedding of `theia/sfm/camera/fov_camera_model.h` (the templated
static methods `CameraToPixelCoordinates`, `PixelToCameraCoordinates`,
`DistortPoint`, `UndistortPoint`) and of the view-graph filter
`RemoveDisconnectedViewPairs`.

The C++ methods are templates over a scalar type `T` (plain doubles or
automatic-differentiation jets).  The embedding keeps that shape: the
definitions are generic over a scalar type carrying the arithmetic
operators, a decidable `<`, decimal literals and the three `ceres::`
functions the code calls.  The theorems about the closed-form distortion law
instantiate `T` with the real numbers.
-/

namespace theia

/-- The `ceres::` math functions used by the camera model, for a scalar type
`T` (`ceres::sqrt`, `ceres::atan`, `ceres::tan`). -/
class CeresScalar (T : Type) where
  /-- The function `ceres::sqrt`. -/
  sqrt : T → T
  /-- The function `ceres::atan`. -/
  atan : T → T
  /-- The function `ceres::tan`. -/
  tan : T → T

/-- Plain numeric evaluation: `T = double`. -/
instance : CeresScalar Float where
  sqrt := Float.sqrt
  atan := Float.atan
  tan := Float.tan

/-- Exact evaluation over the real numbers. -/
noncomputable instance : CeresScalar ℝ where
  sqrt := Real.sqrt
  atan := Real.arctan
  tan := Real.tan

namespace FOVCameraModel

/-- The constant `static const int kIntrinsicsSize = 5`. -/
def kIntrinsicsSize : Nat := 5

/-- Index `FOCAL_LENGTH = 0` of `InternalParametersIndex`. -/
def FOCAL_LENGTH : Fin kIntrinsicsSize := ⟨0, by decide⟩
/-- Index `ASPECT_RATIO = 1` of `InternalParametersIndex`. -/
def ASPECT_RATIO : Fin kIntrinsicsSize := ⟨1, by decide⟩
/-- Index `PRINCIPAL_POINT_X = 2` of `InternalParametersIndex`. -/
def PRINCIPAL_POINT_X : Fin kIntrinsicsSize := ⟨2, by decide⟩
/-- Index `PRINCIPAL_POINT_Y = 3` of `InternalParametersIndex`. -/
def PRINCIPAL_POINT_Y : Fin kIntrinsicsSize := ⟨3, by decide⟩
/-- Index `RADIAL_DISTORTION_1 = 4` of `InternalParametersIndex`. -/
def RADIAL_DISTORTION_1 : Fin kIntrinsicsSize := ⟨4, by decide⟩

section Generic

variable {T : Type} [Add T] [Sub T] [Mul T] [Div T] [LT T]
  [DecidableRel (fun a b : T => a < b)] [OfScientific T] [CeresScalar T]

/-- The constant `static const T kVerySmallNumber(1e-8)`. -/
def kVerySmallNumber : T := 1e-8

/-- The method `FOVCameraModel::DistortPoint`: `intrinsic_parameters` is the
parameter array, `undistorted_point` the input 2-array; the result is the
2-array written to `distorted_point`. -/
def DistortPoint (intrinsic_parameters : Fin kIntrinsicsSize → T)
    (undistorted_point : T × T) : T × T :=
  let omega := intrinsic_parameters RADIAL_DISTORTION_1
  let r_u_sq := undistorted_point.1 * undistorted_point.1 +
                undistorted_point.2 * undistorted_point.2
  if omega < kVerySmallNumber ∨ r_u_sq < kVerySmallNumber then
    (undistorted_point.1, undistorted_point.2)
  else
    let r_u := CeresScalar.sqrt r_u_sq
    let r_d :=
      CeresScalar.atan ((2.0 : T) * r_u * CeresScalar.tan (omega / (2.0 : T))) / (r_u * omega)
    (r_d * undistorted_point.1, r_d * undistorted_point.2)

/-- The method `FOVCameraModel::UndistortPoint`: the result is the 2-array
written to `undistorted_point`. -/
def UndistortPoint (intrinsic_parameters : Fin kIntrinsicsSize → T)
    (distorted_point : T × T) : T × T :=
  let omega := intrinsic_parameters RADIAL_DISTORTION_1
  let r_d_sq := distorted_point.1 * distorted_point.1 +
                distorted_point.2 * distorted_point.2
  if omega < kVerySmallNumber ∨ r_d_sq < kVerySmallNumber then
    (distorted_point.1, distorted_point.2)
  else
    let r_d := CeresScalar.sqrt r_d_sq
    let r_u :=
      CeresScalar.tan (r_d * omega) / ((2.0 : T) * r_d * CeresScalar.tan (omega / (2.0 : T)))
    (r_u * distorted_point.1, r_u * distorted_point.2)

/-- The divisors that one call of `FOVCameraModel::UndistortPoint` divides
by, in evaluation order: none on the early-return branch, and on the main
branch the `T(2.0)` of `omega / T(2.0)` followed by the denominator
`T(2.0) * r_d * tan(omega / T(2.0))`. -/
def UndistortPointDivisors (intrinsic_parameters : Fin kIntrinsicsSize → T)
    (distorted_point : T × T) : List T :=
  let omega := intrinsic_parameters RADIAL_DISTORTION_1
  let r_d_sq := distorted_point.1 * distorted_point.1 +
                distorted_point.2 * distorted_point.2
  if omega < kVerySmallNumber ∨ r_d_sq < kVerySmallNumber then
    []
  else
    let r_d := CeresScalar.sqrt r_d_sq
    [(2.0 : T), (2.0 : T) * r_d * CeresScalar.tan (omega / (2.0 : T))]

/-- The method `FOVCameraModel::CameraToPixelCoordinates`: `point` is the
3-array in camera coordinates, the result is the 2-array written to `pixel`. -/
def CameraToPixelCoordinates (intrinsic_parameters : Fin kIntrinsicsSize → T)
    (point : T × T × T) : T × T :=
  let depth := point.2.2
  let normalized_pixel : T × T := (point.1 / depth, point.2.1 / depth)
  let distorted_pixel := DistortPoint intrinsic_parameters normalized_pixel
  let focal_length := intrinsic_parameters FOCAL_LENGTH
  let aspect_ratio := intrinsic_parameters ASPECT_RATIO
  let focal_length_y := focal_length * aspect_ratio
  let principal_point_x := intrinsic_parameters PRINCIPAL_POINT_X
  let principal_point_y := intrinsic_parameters PRINCIPAL_POINT_Y
  (focal_length * distorted_pixel.1 + principal_point_x,
   focal_length_y * distorted_pixel.2 + principal_point_y)

/-- The method `FOVCameraModel::PixelToCameraCoordinates`: `pixel` is the
2-array of image coordinates, the result is the 3-array written to `point`
(`UndistortPoint` writes entries 0 and 1, then `point[2] = T(1.0)`). -/
def PixelToCameraCoordinates (intrinsic_parameters : Fin kIntrinsicsSize → T)
    (pixel : T × T) : T × T × T :=
  let focal_length := intrinsic_parameters FOCAL_LENGTH
  let aspect_ratio := intrinsic_parameters ASPECT_RATIO
  let focal_length_y := focal_length * aspect_ratio
  let principal_point_x := intrinsic_parameters PRINCIPAL_POINT_X
  let principal_point_y := intrinsic_parameters PRINCIPAL_POINT_Y
  let distorted_point : T × T :=
    ((pixel.1 - principal_point_x) / focal_length,
     (pixel.2 - principal_point_y) / focal_length_y)
  let undistorted := UndistortPoint intrinsic_parameters distorted_point
  (undistorted.1, undistorted.2, (1.0 : T))

/-- A parameter array given by its five entries, in index order
`FOCAL_LENGTH`, `ASPECT_RATIO`, `PRINCIPAL_POINT_X`, `PRINCIPAL_POINT_Y`,
`RADIAL_DISTORTION_1`. -/
def intrinsics (focal_length aspect_ratio principal_point_x principal_point_y
    radial_distortion_1 : T) : Fin kIntrinsicsSize → T
  | ⟨0, _⟩ => focal_length
  | ⟨1, _⟩ => aspect_ratio
  | ⟨2, _⟩ => principal_point_x
  | ⟨3, _⟩ => principal_point_y
  | _ => radial_distortion_1

end Generic

/-- Euclidean radius `|p|` of a 2D point over the reals. -/
noncomputable def radius (p : ℝ × ℝ) : ℝ := √(p.1 * p.1 + p.2 * p.2)

end FOVCameraModel

/-! ## View-graph filter

`theia/sfm/view_graph/remove_disconnected_view_pairs.h` and
`theia/math/graph/connected_components.h` are only included by the test
`remove_disconnected_view_pairs_test.cc`; their bodies are modelled from the
specification (section 4.2).  A view-pair map is an association list of
`(ViewIdPair, TwoViewInfo)` entries; `TwoViewInfo` stays abstract. -/

/-- The type `ViewId` of `theia/sfm/types.h`: an integer identifier of a view. -/
abbrev ViewId := Nat

/-- The type `ViewIdPair`: the key of the view-pair map, a pair of view ids. -/
abbrev ViewIdPair := ViewId × ViewId

/-- Modelled from the spec: the body of `ConnectedComponents::AddEdge` is
missing.  "Builds a union-find / connected-components structure over the
ViewIds": the structure is its representative function `find`, and adding the
edge `(a, b)` merges the class of `b` into the class of `a`. -/
def ConnectedComponents.AddEdge (find : ViewId → ViewId) (a b : ViewId) : ViewId → ViewId :=
  let root_a := find a
  let root_b := find b
  fun v => if find v = root_b then root_a else find v

/-- Modelled from the spec: the body of `ConnectedComponents::Extract` is
missing.  "Single pass of union-find over all pairs", starting from the
structure in which every view is its own representative. -/
def ConnectedComponents.Extract (keys : List ViewIdPair) : ViewId → ViewId :=
  keys.foldl (fun find e => ConnectedComponents.AddEdge find e.1 e.2) (fun v => v)

/-- Modelled from the spec: "one pass to tally component sizes by
representative"; the size of a component is its number of edges. -/
def componentSize (find : ViewId → ViewId) (keys : List ViewIdPair) (root : ViewId) : Nat :=
  keys.countP (fun e => find e.1 = root)

/-- Modelled from the spec: one step of the search for "the component
containing the majority of edges (ties resolved by ... first-seen largest)":
the best representative so far is replaced only by a strictly larger one. -/
def largestComponentStep (find : ViewId → ViewId) (keys : List ViewIdPair)
    (best : Option ViewId) (e : ViewIdPair) : Option ViewId :=
  match best with
  | none => some (find e.1)
  | some root =>
    if componentSize find keys root < componentSize find keys (find e.1) then some (find e.1)
    else some root

/-- Modelled from the spec: the representative of the component with the most
edges, first-seen on ties; `none` exactly when there is no edge. -/
def largestComponent (find : ViewId → ViewId) (keys : List ViewIdPair) : Option ViewId :=
  keys.foldl (largestComponentStep find keys) none

/-- Modelled from the spec: the body of `RemoveDisconnectedViewPairs` (the
spec's `FilterToLargestConnectedComponent`) is missing.  Union-find over the
keys, tally by representative, then "one pass to filter ... leaving only
entries whose endpoints share the single retained component"; "empty input
leaves the mapping empty and is not an error".  The result is the map after
the in-place removal. -/
def RemoveDisconnectedViewPairs {TwoViewInfo : Type}
    (view_pairs : List (ViewIdPair × TwoViewInfo)) : List (ViewIdPair × TwoViewInfo) :=
  let keys := view_pairs.map Prod.fst
  let find := ConnectedComponents.Extract keys
  match largestComponent find keys with
  | none => view_pairs
  | some root => view_pairs.filter (fun e => find e.1.1 = root ∧ find e.1.2 = root)

/-- Connectivity in the undirected graph on view ids implied by a key list:
the equivalence relation generated by the edges. -/
def Connected (keys : List ViewIdPair) : ViewId → ViewId → Prop :=
  Relation.EqvGen (fun a b => (a, b) ∈ keys)

/-- A view id is a view of the graph implied by the keys when it is an
endpoint of some key. -/
def IsView (keys : List ViewIdPair) (v : ViewId) : Prop :=
  ∃ e ∈ keys, v = e.1 ∨ v = e.2

/-- The graph implied by the keys is connected (a single component): any two
of its views are connected. -/
def GraphConnected (keys : List ViewIdPair) : Prop :=
  ∀ a b, IsView keys a → IsView keys b → Connected keys a b

/-! ## Global position estimator

`least_unsquared_deviation_position_estimator.h` declares the estimator; the
struct `Options` is defined there.  The body of `EstimatePositions` is not
part of the sources and is modelled from the specification (sections 4.3 and
7), with the numerical solve step left abstract. -/

namespace LeastUnsquaredDeviationPositionEstimator

/-- The struct `LeastUnsquaredDeviationPositionEstimator::Options`, with the
default member initializers of the header (`double` as a rational). -/
structure Options where
  /-- Member `int num_threads = 1`. -/
  num_threads : Int := 1
  /-- Member `int max_num_iterations = 400`. -/
  max_num_iterations : Int := 400
  /-- Member `bool initialize_random_positions = true`. -/
  initialize_random_positions : Bool := true
  /-- Member `int max_num_reweighted_iterations = 10`. -/
  max_num_reweighted_iterations : Int := 10
  /-- Member `double convergence_criterion = 1e-4`. -/
  convergence_criterion : ℚ := 1e-4

/-- Modelled from the spec: the states of the estimator's state machine,
`Uninitialized → Initialized → Iterating → Converged | IterationLimitReached
→ Done` (section 4.3). -/
inductive State where
  | Uninitialized
  | Initialized
  | Iterating
  | Converged
  | IterationLimitReached
  | Done
  deriving DecidableEq

/-- Modelled from the spec: the numerical steps that the estimator delegates
(the bodies of `InitializeRandomPositions`, `AddCameraToCameraConstraints`,
`ComputeWeights` and the inner nonlinear solve are missing).  `Solve` returns
`none` when "the underlying solve itself reports divergence". -/
structure Numerics (TwoViewInfo Orientation Positions Problem Weights : Type) where
  /-- Positions "assigned independent random 3D values". -/
  InitializeRandomPositions : List (ViewId × Orientation) → Positions
  /-- Constraints "built once from the relative-translation observations and
  fixed absolute orientations". -/
  AddCameraToCameraConstraints :
    List (ViewIdPair × TwoViewInfo) → List (ViewId × Orientation) → Problem
  /-- The "unit weights" of the first solve. -/
  UnitWeights : Problem → Weights
  /-- Weights recomputed "from the residuals of the previous solve". -/
  ComputeWeights : Problem → Positions → Weights
  /-- One inner solve of "the current weighted ... least-squares system". -/
  Solve : Problem → Weights → Positions → Option Positions
  /-- The "relative change in the solution ... between consecutive iterations". -/
  RelativeChange : Positions → Positions → ℚ

/-- Modelled from the spec: what `EstimatePositions` hands back, the success
flag, the position map, the number of outer reweighting rounds performed and
the state from which `Done` was entered. -/
structure Outcome (Positions : Type) where
  /-- The boolean returned by `EstimatePositions`. -/
  success : Bool
  /-- The caller-owned position mapping after the call. -/
  positions : Positions
  /-- Number of outer reweighting rounds that were started. -/
  reweighted_rounds : Nat
  /-- The state the machine was in when it stopped. -/
  stopped_in : State

/-- Modelled from the spec: "Malformed input graph (empty observation set,
fewer than 2 views, or a view pair referencing only one distinct view)" of
section 7. -/
def MalformedInputGraph {TwoViewInfo : Type}
    (view_pairs : List (ViewIdPair × TwoViewInfo)) : Bool :=
  view_pairs.isEmpty ||
  decide (((view_pairs.map (fun e => e.1.1)) ++ (view_pairs.map (fun e => e.1.2))).dedup.length < 2) ||
  view_pairs.any (fun e => decide (e.1.1 = e.1.2))

/-- Modelled from the spec: the outer reweighting loop of section 4.3.  Each
round recomputes the weights from the previous solution and re-solves; it
stops on divergence of the inner solve (failure), when the relative change
drops below `convergence_criterion` (`Converged`), or when `remaining` rounds
are used up (`IterationLimitReached`). -/
def ReweightedIterations {TwoViewInfo Orientation Positions Problem Weights : Type}
    (numerics : Numerics TwoViewInfo Orientation Positions Problem Weights)
    (problem : Problem) (convergence_criterion : ℚ) :
    Nat → Positions → Nat → Outcome Positions
  | 0, current, rounds => ⟨true, current, rounds, State.IterationLimitReached⟩
  | remaining + 1, current, rounds =>
    match numerics.Solve problem (numerics.ComputeWeights problem current) current with
    | none => ⟨false, current, rounds + 1, State.Iterating⟩
    | some next =>
      if numerics.RelativeChange current next < convergence_criterion then
        ⟨true, next, rounds + 1, State.Converged⟩
      else
        ReweightedIterations numerics problem convergence_criterion remaining next (rounds + 1)

/-- Modelled from the spec: the body of
`LeastUnsquaredDeviationPositionEstimator::EstimatePositions` is missing.
Malformed input is reported as failure; positions are seeded from the caller
or randomly; the first solve uses unit weights; then at most
`max_num_reweighted_iterations` reweighting rounds follow. -/
def EstimatePositions {TwoViewInfo Orientation Positions Problem Weights : Type}
    (options : Options)
    (numerics : Numerics TwoViewInfo Orientation Positions Problem Weights)
    (view_pairs : List (ViewIdPair × TwoViewInfo))
    (orientation : List (ViewId × Orientation))
    (positions : Positions) : Outcome Positions :=
  if MalformedInputGraph view_pairs then
    ⟨false, positions, 0, State.Uninitialized⟩
  else
    let initial :=
      if options.initialize_random_positions then numerics.InitializeRandomPositions orientation
      else positions
    let problem := numerics.AddCameraToCameraConstraints view_pairs orientation
    match numerics.Solve problem (numerics.UnitWeights problem) initial with
    | none => ⟨false, initial, 0, State.Initialized⟩
    | some first =>
      ReweightedIterations numerics problem options.convergence_criterion
        options.max_num_reweighted_iterations.toNat first 0

end LeastUnsquaredDeviationPositionEstimator

/-! ## Camera model variants -/

/-- The enum class `CameraIntrinsicsModelType` of `camera_intrinsics_model.h`:
its two enumerators. -/
inductive CameraIntrinsicsModelType where
  | INVALID
  | PINHOLE
  deriving DecidableEq

/-- The integer value of each enumerator: `INVALID = -1`, `PINHOLE = 0`. -/
def CameraIntrinsicsModelType.toInt : CameraIntrinsicsModelType → Int
  | CameraIntrinsicsModelType.INVALID => -1
  | CameraIntrinsicsModelType.PINHOLE => 0

/-- Modelled from the spec: the body of `FOVCameraModel::NumParameters` is
missing; "Field-of-view model ...: 5 parameters". -/
def FOVCameraModel.NumParameters : Nat := 5


/-! ## Reconstruction records

`reconstruction.h`, `view.h`, `track.h`, `camera.h` and
`camera_intrinsics_prior.h` are not part of the sources; the readers and
writers below only use a few accessors of these classes, which are modelled
as plain records.  `double` and `float` values read from or written to text
files are rationals. -/

/-- A 3-vector `Eigen::Vector3d` / `Eigen::Vector3f`. -/
abbrev Vector3 := ℚ × ℚ × ℚ

/-- A homogeneous point `Eigen::Vector4d`. -/
abbrev Vector4 := ℚ × ℚ × ℚ × ℚ

/-- Modelled from the spec: "the externally-visible priors structure carries
at minimum `{focal_length: optional<double>}`"; `some f` stands for
`focal_length.value = f` with `focal_length.is_set = true`. -/
structure CameraIntrinsicsPrior where
  /-- The member `focal_length`. -/
  focal_length : Option ℚ := none
  deriving DecidableEq

/-- The part of a `View` that the readers and writers touch: its name, its
intrinsics prior, the estimated flag and the position of its camera
(`Camera().GetPosition()`). -/
structure View where
  /-- The name the view was added under. -/
  Name : String
  /-- The prior reached through `MutableCameraIntrinsicsPrior()`. -/
  CameraIntrinsicsPrior : CameraIntrinsicsPrior := {}
  /-- The flag read by `IsEstimated()`. -/
  IsEstimated : Bool := false
  /-- The camera position read by `Camera().GetPosition()`. -/
  Position : Vector3 := (0, 0, 0)
  deriving DecidableEq

/-- The part of a `Track` that the writers touch: the estimated flag and the
homogeneous point. -/
structure Track where
  /-- The flag read by `IsEstimated()`. -/
  IsEstimated : Bool
  /-- The homogeneous point read by `Point()`. -/
  Point : Vector4
  deriving DecidableEq

/-- A `Reconstruction`: its views in the order of their ids (`ViewId` `i` is
the `i`-th view, as `ReadBundlerFiles` assumes when it calls
`MutableView(i)` for `i < num_cameras`) and its tracks in the order of
`TrackIds()`. -/
structure Reconstruction where
  /-- The views, indexed by `ViewId`. -/
  views : List View := []
  /-- The tracks, in the order of `TrackIds()`. -/
  tracks : List Track := []
  deriving DecidableEq

/-- The behaviour assumed of a successful call `reconstruction->AddView(filename)`
(`reconstruction.h` is not part of the sources, so `AddView` is a parameter of
the reader): when the returned id is not `kInvalidViewId`, the view was
appended under the given name, with no prior set, and its id is its index. -/
def AddViewAppends (AddView : Reconstruction → String → ViewId × Reconstruction)
    (kInvalidViewId : ViewId) : Prop :=
  ∀ (reconstruction : Reconstruction) (filename : String),
    (AddView reconstruction filename).1 ≠ kInvalidViewId →
    AddView reconstruction filename =
      (reconstruction.views.length,
       { reconstruction with views := reconstruction.views ++ [{ Name := filename }] })

/-- One behaviour of the absent `Reconstruction::AddView`, to instantiate the
parameter: a name that is already present is refused with `kInvalidViewId`,
any other name is appended and gets the next id. -/
def AddViewUniqueNames (kInvalidViewId : ViewId) (reconstruction : Reconstruction)
    (filename : String) : ViewId × Reconstruction :=
  if reconstruction.views.any (fun view => view.Name == filename) then
    (kInvalidViewId, reconstruction)
  else
    (reconstruction.views.length,
     { reconstruction with views := reconstruction.views ++ [{ Name := filename }] })

/-- Update of one list entry in place, for `MutableView(view_id)->...`. -/
def modifyAt {α : Type} (f : α → α) : Nat → List α → List α
  | _, [] => []
  | 0, a :: rest => f a :: rest
  | n + 1, a :: rest => a :: modifyAt f n rest

/-- The two assignments through
`reconstruction->MutableView(view_id)->MutableCameraIntrinsicsPrior()`:
`focal_length.value = focal_length` and `focal_length.is_set = true`. -/
def Reconstruction.SetFocalLengthPrior (reconstruction : Reconstruction) (view_id : ViewId)
    (focal_length : ℚ) : Reconstruction :=
  { reconstruction with
    views := modifyAt
      (fun view => { view with CameraIntrinsicsPrior := { focal_length := some focal_length } })
      view_id reconstruction.views }

/-! ## Bundler files (`read_bundler_files.cc`) -/

/-- One line of a list file as the stream operations see it: the file name
read by `ifs >> filename`, and, when the next character is a space
(`ifs.peek() == space`), the two numbers read by `ifs >> temp` and
`ifs >> focal_length`. -/
structure ListLine where
  /-- The token read by `ifs >> filename`. -/
  filename : String
  /-- The fields `temp` and `focal_length`, when a space follows the name. -/
  exif : Option (Int × ℚ)

/-- The loop `while (!ifs.eof())` of `ReadListsFile` over the remaining lines;
an empty file name (nothing left to read) ends it.  `AddView` and
`kInvalidViewId` are the absent `Reconstruction::AddView` and constant of
`types.h`; `none` is the abort of `CHECK_NE(view_id, kInvalidViewId)`. -/
def ReadListsFileLoop (AddView : Reconstruction → String → ViewId × Reconstruction)
    (kInvalidViewId : ViewId) : List ListLine → Reconstruction → Option Reconstruction
  | [], reconstruction => some reconstruction
  | line :: rest, reconstruction =>
    if line.filename.length = 0 then
      some reconstruction
    else
      let added := AddView reconstruction line.filename
      let view_id := added.1
      if view_id ≠ kInvalidViewId then
        let focal_length : ℚ :=
          match line.exif with
          | some (_, value) => value
          | none => 0
        if focal_length ≠ 0 then
          ReadListsFileLoop AddView kInvalidViewId rest
            (added.2.SetFocalLengthPrior view_id focal_length)
        else
          ReadListsFileLoop AddView kInvalidViewId rest added.2
      else
        none

/-- The function `ReadListsFile`; the list file is `none` when it cannot be
opened.  The result is `none` when the program aborts at `CHECK_NE`, otherwise
the returned boolean and the reconstruction afterwards. -/
def ReadListsFile (AddView : Reconstruction → String → ViewId × Reconstruction)
    (kInvalidViewId : ViewId) (list_file : Option (List ListLine))
    (reconstruction : Reconstruction) : Option (Bool × Reconstruction) :=
  match list_file with
  | none => some (false, reconstruction)
  | some lines =>
    match ReadListsFileLoop AddView kInvalidViewId lines reconstruction with
    | some result => some (true, result)
    | none => none

/-- The prior that the list-file format assigns to a line: the focal length
of a three-field line when it is not 0, otherwise unset. -/
def ListLine.expectedPrior (line : ListLine) : CameraIntrinsicsPrior :=
  match line.exif with
  | some (_, value) => if value ≠ 0 then { focal_length := some value } else {}
  | none => {}

section BundlerCamera

variable {α : Type} [CommRing α]

/-- The statements `rotation.row(1) *= -1.0; rotation.row(2) *= -1.0;`. -/
def FlipRotation (rotation : Matrix (Fin 3) (Fin 3) α) : Matrix (Fin 3) (Fin 3) α :=
  fun r c => if r = 1 ∨ r = 2 then rotation r c * (-1) else rotation r c

/-- The statements `translation(1) *= -1.0; translation(2) *= -1.0;`. -/
def FlipTranslation (translation : Fin 3 → α) : Fin 3 → α :=
  fun j => if j = 1 ∨ j = 2 then translation j * (-1) else translation j

/-- The vector `position = -rotation.transpose() * translation` that
`ReadBundlerFiles` passes to `SetPosition`, computed after the flips. -/
def BundlerCameraPosition (rotation : Matrix (Fin 3) (Fin 3) α) (translation : Fin 3 → α) :
    Fin 3 → α :=
  (-(Matrix.transpose (FlipRotation rotation))).mulVec (FlipTranslation translation)

/-- The matrix that `ReadBundlerFiles` passes to
`SetOrientationFromRotationMatrix`: the rotation after the flips. -/
def BundlerCameraRotation (rotation : Matrix (Fin 3) (Fin 3) α) : Matrix (Fin 3) (Fin 3) α :=
  FlipRotation rotation

end BundlerCamera

/-! ## PLY export (`write_ply_file.cc`) -/

/-- The method `hnormalized()` of a homogeneous point: division by the last
coordinate. -/
def hnormalized (point : Vector4) : Vector3 :=
  (point.1 / point.2.2.2, point.2.1 / point.2.2.2, point.2.2.1 / point.2.2.2)

/-- The function `GatherTracks`: appends the point of every estimated track
to `points_to_write` and white to `colors_to_write`. -/
def GatherTracks (reconstruction : Reconstruction)
    (points_to_write colors_to_write : List Vector3) : List Vector3 × List Vector3 :=
  reconstruction.tracks.foldl
    (fun acc track =>
      if !track.IsEstimated then acc
      else (acc.1 ++ [hnormalized track.Point], acc.2 ++ [((1.0 : ℚ), (1.0 : ℚ), (1.0 : ℚ))]))
    (points_to_write, colors_to_write)

/-- The function `GatherCameras`: appends the position of every estimated
view to `points_to_write` and green to `colors_to_write`. -/
def GatherCameras (reconstruction : Reconstruction)
    (points_to_write colors_to_write : List Vector3) : List Vector3 × List Vector3 :=
  reconstruction.views.foldl
    (fun acc view =>
      if !view.IsEstimated then acc
      else (acc.1 ++ [view.Position], acc.2 ++ [((0.0 : ℚ), (1.0 : ℚ), (0.0 : ℚ))]))
    (points_to_write, colors_to_write)

/-- The header that `WritePlyFile` writes, one string per line;
`num_vertices` is `points_to_write.size()`. -/
def PlyHeader (num_vertices : Nat) : List String :=
  ["ply", "format ascii 1.0", "element vertex " ++ toString num_vertices,
   "property double x", "property double y", "property double z",
   "property float red", "property float green", "property float blue", "end_header"]

/-- The loop `for (int i = 0; i < points_to_write.size(); i++)` of
`WritePlyFile`, from index `i` on with `remaining` iterations left: one line
per index, `none` when `points_to_write[i]` or `colors_to_write[i]` is out of
range.  `print` stands for the stream output of a transposed Eigen vector. -/
def WriteVertexLines (print : Vector3 → String) (points_to_write colors_to_write : List Vector3) :
    Nat → Nat → Option (List String)
  | 0, _ => some []
  | remaining + 1, i =>
    match points_to_write[i]?, colors_to_write[i]? with
    | some point, some color =>
      match WriteVertexLines print points_to_write colors_to_write remaining (i + 1) with
      | some lines => some ((print point ++ " " ++ print color) :: lines)
      | none => none
    | _, _ => none

/-- The function `WritePlyFile`: `is_open` tells whether the file could be
opened.  `none` is an abort (`CHECK_GT` on the file name, or an index out of
range); otherwise the returned boolean and the lines written. -/
def WritePlyFile (print : Vector3 → String) (ply_file : String) (is_open : Bool)
    (reconstruction : Reconstruction) : Option (Bool × List String) :=
  if ply_file.length = 0 then none
  else if !is_open then some (false, [])
  else
    let gathered_tracks := GatherTracks reconstruction [] []
    let gathered := GatherCameras reconstruction gathered_tracks.1 gathered_tracks.2
    let points_to_write := gathered.1
    let colors_to_write := gathered.2
    match WriteVertexLines print points_to_write colors_to_write points_to_write.length 0 with
    | some lines => some (true, PlyHeader points_to_write.length ++ lines)
    | none => none

/-! ## Reconstruction viewer (`applications/view_reconstruction.cc`)

The global variables of the viewer and its GLUT callbacks, as functions on the
record of globals.  `float` and `double` globals are rationals; the containers
filled once by `main` are left out; the OpenGL calls of `ChangeSize` are
returned as a list. -/

namespace ViewReconstruction

/-- The global variables of the viewer with their initializers. -/
structure Globals where
  /-- Global `int width = 1200`. -/
  width : Int := 1200
  /-- Global `int height = 800`. -/
  height : Int := 800
  /-- Global `float viewer_position[3]`. -/
  viewer_position : ℚ × ℚ × ℚ := (0.0, 0.0, -50.0)
  /-- Global `float navigation_rotation[3]`. -/
  navigation_rotation : ℚ × ℚ × ℚ := (0.0, 0.0, 0.0)
  /-- Global `int mouse_pressed_x = 0`. -/
  mouse_pressed_x : Int := 0
  /-- Global `int mouse_pressed_y = 0`. -/
  mouse_pressed_y : Int := 0
  /-- Global `float last_x_offset = 0.0`. -/
  last_x_offset : ℚ := 0.0
  /-- Global `float last_y_offset = 0.0`. -/
  last_y_offset : ℚ := 0.0
  /-- Global `int left_mouse_button_active = 0`. -/
  left_mouse_button_active : Int := 0
  /-- Global `int right_mouse_button_active = 0`. -/
  right_mouse_button_active : Int := 0
  /-- Global `float zoom = 25`. -/
  zoom : ℚ := 25
  /-- Global `bool draw_cameras = true`. -/
  draw_cameras : Bool := true
  /-- Global `bool draw_axes = false`. -/
  draw_axes : Bool := false
  /-- Global `float point_size = 1.0`. -/
  point_size : ℚ := 1.0
  /-- Global `float normalized_focal_length = 1.0`. -/
  normalized_focal_length : ℚ := 1.0
  /-- Global `int min_num_views_for_track = 3`. -/
  min_num_views_for_track : Int := 3
  /-- Global `double anti_aliasing_blend = 0.4`. -/
  anti_aliasing_blend : ℚ := 0.4

/-- The GLUT constant `GLUT_LEFT_BUTTON`. -/
def GLUT_LEFT_BUTTON : Int := 0
/-- The GLUT constant `GLUT_RIGHT_BUTTON`. -/
def GLUT_RIGHT_BUTTON : Int := 2
/-- The GLUT constant `GLUT_DOWN`. -/
def GLUT_DOWN : Int := 0
/-- The GLUT constant `GLUT_UP`. -/
def GLUT_UP : Int := 1

/-- The argument of `glMatrixMode`. -/
inductive MatrixMode where
  | GL_PROJECTION
  | GL_MODELVIEW
  deriving DecidableEq

/-- The OpenGL calls issued by `ChangeSize`, with their arguments. -/
inductive GLCall (T : Type) where
  | glMatrixMode (mode : MatrixMode)
  | glLoadIdentity
  | glViewport (x y w h : Int)
  | gluPerspective (fovy aspect zNear zFar : T)

section Perspective

variable {T : Type} [Mul T] [Div T] [OfScientific T] [IntCast T]

/-- The function `GetPerspectiveParams`, returning `(*aspect_ratio, *fovy)`;
`atan` and `M_PI` are the C library's. -/
def GetPerspectiveParams (atan : T → T) (M_PI : T) (globals : Globals) : T × T :=
  let focal_length : T := 800.0
  let aspect_ratio : T := (globals.width : T) / (globals.height : T)
  let fovy : T :=
    ((2 : Int) : T) * atan ((globals.height : T) / (2.0 * focal_length)) * 180.0 / M_PI
  (aspect_ratio, fovy)

/-- The callback `ChangeSize(w, h)`: the OpenGL calls it makes, in order. -/
def ChangeSize (atan : T → T) (M_PI : T) (globals : Globals) (w h : Int) : List (GLCall T) :=
  let h := if h = 0 then 1 else h
  let params := GetPerspectiveParams atan M_PI globals
  let aspect_ratio := params.1
  let fovy := params.2
  [GLCall.glMatrixMode MatrixMode.GL_PROJECTION,
   GLCall.glLoadIdentity,
   GLCall.glViewport 0 0 w h,
   GLCall.gluPerspective fovy aspect_ratio 0.001 100000.0,
   GLCall.glMatrixMode MatrixMode.GL_MODELVIEW]

end Perspective

/-- The callback `MouseButton(button, state, x, y)`. -/
def MouseButton (globals : Globals) (button state x y : Int) : Globals :=
  let g1 : Globals :=
    if button = GLUT_RIGHT_BUTTON then
      if state = GLUT_DOWN then
        { globals with right_mouse_button_active := globals.right_mouse_button_active + 1 }
      else
        { globals with right_mouse_button_active := globals.right_mouse_button_active - 1 }
    else if button = GLUT_LEFT_BUTTON then
      if state = GLUT_DOWN then
        { globals with
          left_mouse_button_active := globals.left_mouse_button_active + 1,
          last_x_offset := 0.0,
          last_y_offset := 0.0 }
      else
        { globals with left_mouse_button_active := globals.left_mouse_button_active - 1 }
    else globals
  if button = 3 ∨ button = 4 then
    if state = GLUT_UP then g1
    else
      let g2 : Globals :=
        if button = 3 then
          { g1 with viewer_position :=
              (g1.viewer_position.1, g1.viewer_position.2.1, g1.viewer_position.2.2 + g1.zoom) }
        else
          { g1 with viewer_position :=
              (g1.viewer_position.1, g1.viewer_position.2.1, g1.viewer_position.2.2 - g1.zoom) }
      { g2 with mouse_pressed_x := x, mouse_pressed_y := y }
  else
    { g1 with mouse_pressed_x := x, mouse_pressed_y := y }

/-- The callback `MouseMove(x, y)`. -/
def MouseMove (globals : Globals) (x y : Int) : Globals :=
  if globals.right_mouse_button_active ≠ 0 then
    { globals with
      navigation_rotation :=
        (globals.navigation_rotation.1 +
            (((globals.mouse_pressed_y - y : Int) : ℚ) * 180.0) / 200.0,
         globals.navigation_rotation.2.1 +
            (((globals.mouse_pressed_x - x : Int) : ℚ) * 180.0) / 200.0,
         globals.navigation_rotation.2.2),
      mouse_pressed_y := y,
      mouse_pressed_x := x }
  else if globals.left_mouse_button_active ≠ 0 then
    let x_offset : ℚ := ((globals.mouse_pressed_x - x : Int) : ℚ)
    let g1 : Globals :=
      if globals.last_x_offset ≠ 0.0 then
        { globals with viewer_position :=
            (globals.viewer_position.1 - (x_offset - globals.last_x_offset) / 8.0,
             globals.viewer_position.2.1, globals.viewer_position.2.2) }
      else globals
    let g2 : Globals := { g1 with last_x_offset := x_offset }
    let y_offset : ℚ := ((g2.mouse_pressed_y - y : Int) : ℚ)
    let g3 : Globals :=
      if g2.last_y_offset ≠ 0.0 then
        { g2 with viewer_position :=
            (g2.viewer_position.1,
             g2.viewer_position.2.1 + (y_offset - g2.last_y_offset) / 8.0,
             g2.viewer_position.2.2) }
      else g2
    { g3 with last_y_offset := y_offset }
  else globals

/-- The callback `Keyboard(key, x, y)`. -/
def Keyboard (globals : Globals) (key : Char) (_x _y : Int) : Globals :=
  match key with
  | 'r' =>
    { globals with
      viewer_position := (0.0, 0.0, -50.0),
      navigation_rotation := (0.0, 0.0, 0.0),
      mouse_pressed_x := 0,
      mouse_pressed_y := 0,
      last_x_offset := 0.0,
      last_y_offset := 0.0,
      left_mouse_button_active := 0,
      right_mouse_button_active := 0,
      point_size := 1.0 }
  | 'z' =>
    { globals with viewer_position :=
        (globals.viewer_position.1, globals.viewer_position.2.1,
         globals.viewer_position.2.2 + globals.zoom) }
  | 'Z' =>
    { globals with viewer_position :=
        (globals.viewer_position.1, globals.viewer_position.2.1,
         globals.viewer_position.2.2 - globals.zoom) }
  | 'p' => { globals with point_size := globals.point_size / 1.2 }
  | 'P' => { globals with point_size := globals.point_size * 1.2 }
  | 'f' => { globals with normalized_focal_length := globals.normalized_focal_length / 1.2 }
  | 'F' => { globals with normalized_focal_length := globals.normalized_focal_length * 1.2 }
  | 'c' => { globals with draw_cameras := !globals.draw_cameras }
  | 'a' => { globals with draw_axes := !globals.draw_axes }
  | 't' => { globals with min_num_views_for_track := globals.min_num_views_for_track + 1 }
  | 'T' => { globals with min_num_views_for_track := globals.min_num_views_for_track - 1 }
  | 'b' =>
    if globals.anti_aliasing_blend > 0 then
      { globals with anti_aliasing_blend := globals.anti_aliasing_blend - 0.05 }
    else globals
  | 'B' =>
    if globals.anti_aliasing_blend < 1.0 then
      { globals with anti_aliasing_blend := globals.anti_aliasing_blend + 0.05 }
    else globals
  | _ => globals

/-- An event delivered by `glutMainLoop` to one of the registered callbacks. -/
inductive Event where
  | ChangeSize (w h : Int)
  | MouseButton (button state x y : Int)
  | MouseMove (x y : Int)
  | Keyboard (key : Char) (x y : Int)
  | RenderScene

/-- The effect of one event on the globals: `ChangeSize` and `RenderScene` only
read them. -/
def Dispatch (globals : Globals) : Event → Globals
  | Event.ChangeSize _ _ => globals
  | Event.MouseButton button state x y => MouseButton globals button state x y
  | Event.MouseMove x y => MouseMove globals x y
  | Event.Keyboard key x y => Keyboard globals key x y
  | Event.RenderScene => globals

/-- The globals after `glutMainLoop` has delivered the given events, starting
from the initializers. -/
def glutMainLoop (events : List Event) : Globals :=
  events.foldl Dispatch {}

end ViewReconstruction

end theia

/-! ## Theorems: field-of-view camera model -/

namespace theia
namespace FOVCameraModel
open Real Set

/-- Sub-homogeneity of `tan` on `[0, pi/2)`: `tan (k x) <= k tan x` for `0 <= k <= 1`
(the function `k tan x - tan (k x)` vanishes at `0` and has non-negative derivative). -/
theorem tan_mul_le_mul_tan {k x : ℝ} (hk0 : 0 ≤ k) (hk1 : k ≤ 1) (hx0 : 0 ≤ x)
    (hx : x < π / 2) : Real.tan (k * x) ≤ k * Real.tan x := by
  have hcos : ∀ y ∈ Ico (0 : ℝ) (π / 2), 0 < Real.cos y := fun y hy =>
    Real.cos_pos_of_mem_Ioo ⟨by linarith [hy.1, Real.pi_pos], hy.2⟩
  have hmem : ∀ y ∈ Ico (0 : ℝ) (π / 2), k * y ∈ Ico (0 : ℝ) (π / 2) := fun y hy =>
    ⟨mul_nonneg hk0 hy.1, lt_of_le_of_lt (by nlinarith [hy.1]) hy.2⟩
  have hder : ∀ y ∈ Ico (0 : ℝ) (π / 2),
      HasDerivAt (fun z : ℝ => k * Real.tan z - Real.tan (k * z))
        (k * (1 / Real.cos y ^ 2) - 1 / Real.cos (k * y) ^ 2 * k) y := by
    intro y hy
    have h1 := (Real.hasDerivAt_tan (hcos y hy).ne').const_mul k
    have h2 : HasDerivAt (fun z : ℝ => Real.tan (k * z)) (1 / Real.cos (k * y) ^ 2 * k) y := by
      have h3 : HasDerivAt (fun z : ℝ => k * z) k y := by
        simpa using (hasDerivAt_id y).const_mul k
      exact (Real.hasDerivAt_tan (hcos _ (hmem y hy)).ne').comp y h3
    exact h1.sub h2
  have hmono : MonotoneOn (fun z : ℝ => k * Real.tan z - Real.tan (k * z)) (Ico 0 (π / 2)) := by
    apply monotoneOn_of_deriv_nonneg (convex_Ico 0 (π / 2))
    · intro y hy
      exact (hder y hy).continuousAt.continuousWithinAt
    · intro y hy
      rw [interior_Ico] at hy
      exact (hder y ⟨hy.1.le, hy.2⟩).differentiableAt.differentiableWithinAt
    · intro y hy
      rw [interior_Ico] at hy
      have hy' : y ∈ Ico (0 : ℝ) (π / 2) := ⟨hy.1.le, hy.2⟩
      rw [(hder y hy').deriv]
      have hc1 := hcos y hy'
      have hc2 := hcos _ (hmem y hy')
      have hle : Real.cos y ≤ Real.cos (k * y) := by
        apply Real.cos_le_cos_of_nonneg_of_le_pi (hmem y hy').1 (by linarith [hy.2, Real.pi_pos])
        nlinarith [hy.1]
      have hsq : Real.cos y ^ 2 ≤ Real.cos (k * y) ^ 2 := by nlinarith
      have : 1 / Real.cos (k * y) ^ 2 ≤ 1 / Real.cos y ^ 2 :=
        one_div_le_one_div_of_le (by positivity) hsq
      nlinarith
  have h0 : (0 : ℝ) ∈ Ico (0 : ℝ) (π / 2) := ⟨le_refl _, by linarith [Real.pi_pos]⟩
  have := hmono h0 ⟨hx0, hx⟩ hx0
  simp at this
  linarith

/-- The angle form of the previous bound: `k x <= atan (k tan x)`. -/
theorem mul_le_arctan_mul_tan {k x : ℝ} (hk0 : 0 ≤ k) (hk1 : k ≤ 1) (hx0 : 0 ≤ x)
    (hx : x < π / 2) : k * x ≤ Real.arctan (k * Real.tan x) := by
  have h1 := tan_mul_le_mul_tan hk0 hk1 hx0 hx
  have h2 : k * x < π / 2 := lt_of_le_of_lt (by nlinarith) hx
  have h3 : -(π / 2) < k * x := by
    have := mul_nonneg hk0 hx0
    linarith [Real.pi_pos]
  calc k * x = Real.arctan (Real.tan (k * x)) := (Real.arctan_tan h3 h2).symm
    _ ≤ Real.arctan (k * Real.tan x) := Real.arctan_strictMono.monotone h1


/-- The threshold `1e-8` is the square of `1e-4`. -/
theorem kVerySmallNumber_real : (kVerySmallNumber : ℝ) = (1 / 10000) ^ 2 := by
  unfold kVerySmallNumber; norm_num

/-- The literal `T(2.0)` over the reals. -/
theorem two_real : (2.0 : ℝ) = 2 := by norm_num

/-- The main branch of `DistortPoint` over the reals, when neither early-return test fires. -/
theorem DistortPoint_main (P : Fin kIntrinsicsSize → ℝ) (p : ℝ × ℝ)
    (hω : (kVerySmallNumber : ℝ) ≤ P RADIAL_DISTORTION_1)
    (hs : (kVerySmallNumber : ℝ) ≤ p.1 * p.1 + p.2 * p.2) :
    DistortPoint P p =
      (Real.arctan (2 * √(p.1 * p.1 + p.2 * p.2) * Real.tan (P RADIAL_DISTORTION_1 / 2)) /
          (√(p.1 * p.1 + p.2 * p.2) * P RADIAL_DISTORTION_1) * p.1,
       Real.arctan (2 * √(p.1 * p.1 + p.2 * p.2) * Real.tan (P RADIAL_DISTORTION_1 / 2)) /
          (√(p.1 * p.1 + p.2 * p.2) * P RADIAL_DISTORTION_1) * p.2) := by
  unfold DistortPoint
  simp only [CeresScalar.sqrt, CeresScalar.atan, CeresScalar.tan, two_real]
  rw [if_neg (by rw [not_or, not_lt, not_lt]; exact ⟨hω, hs⟩)]

/-- The main branch of `UndistortPoint` over the reals, when neither early-return test fires. -/
theorem UndistortPoint_main (P : Fin kIntrinsicsSize → ℝ) (q : ℝ × ℝ)
    (hω : (kVerySmallNumber : ℝ) ≤ P RADIAL_DISTORTION_1)
    (hs : (kVerySmallNumber : ℝ) ≤ q.1 * q.1 + q.2 * q.2) :
    UndistortPoint P q =
      (Real.tan (√(q.1 * q.1 + q.2 * q.2) * P RADIAL_DISTORTION_1) /
          (2 * √(q.1 * q.1 + q.2 * q.2) * Real.tan (P RADIAL_DISTORTION_1 / 2)) * q.1,
       Real.tan (√(q.1 * q.1 + q.2 * q.2) * P RADIAL_DISTORTION_1) /
          (2 * √(q.1 * q.1 + q.2 * q.2) * Real.tan (P RADIAL_DISTORTION_1 / 2)) * q.2) := by
  unfold UndistortPoint
  simp only [CeresScalar.sqrt, CeresScalar.atan, CeresScalar.tan, two_real]
  rw [if_neg (by rw [not_or, not_lt, not_lt]; exact ⟨hω, hs⟩)]

/-- The early-return branch of `DistortPoint`, for every scalar type. -/
theorem DistortPoint_fallback {T : Type} [Add T] [Sub T] [Mul T] [Div T] [LT T]
    [DecidableRel (fun a b : T => a < b)] [OfScientific T] [CeresScalar T]
    (P : Fin kIntrinsicsSize → T) (p : T × T)
    (h : P RADIAL_DISTORTION_1 < kVerySmallNumber ∨ p.1 * p.1 + p.2 * p.2 < kVerySmallNumber) :
    DistortPoint P p = p := by
  unfold DistortPoint
  simp only []
  rw [if_pos h]


/-- A squared radius above the threshold gives a radius of at least `1e-4`. -/
theorem sqrt_lower {s : ℝ} (hs : (kVerySmallNumber : ℝ) ≤ s) : 1 / 10000 ≤ √s := by
  rw [kVerySmallNumber_real] at hs
  exact Real.le_sqrt_of_sq_le hs

/-- For `1e-8 <= omega < pi`, `tan (omega / 2)` is positive. -/
theorem tan_half_pos {ω : ℝ} (hω : (kVerySmallNumber : ℝ) ≤ ω) (hπ : ω < π) :
    0 < Real.tan (ω / 2) := by
  rw [kVerySmallNumber_real] at hω
  exact Real.tan_pos_of_pos_of_lt_pi_div_two (by linarith [show (0:ℝ) < (1 / 10000) ^ 2 by norm_num])
    (by linarith)

/-- Lower bound on the angle `atan(2 r tan(ω/2))` of the distortion law. -/
theorem arctan_lower {ω r : ℝ} (hω : (kVerySmallNumber : ℝ) ≤ ω) (hπ : ω < π)
    (hr : 1 / 10000 ≤ r) :
    ω / 10000 ≤ Real.arctan (2 * r * Real.tan (ω / 2)) := by
  have ht := tan_half_pos hω hπ
  rw [kVerySmallNumber_real] at hω
  have hω0 : 0 < ω := by linarith [show (0:ℝ) < (1 / 10000) ^ 2 by norm_num]
  have h1 := mul_le_arctan_mul_tan (k := 2 / 10000) (x := ω / 2) (by norm_num) (by norm_num)
    (by linarith) (by linarith)
  have h2 : 2 / 10000 * Real.tan (ω / 2) ≤ 2 * r * Real.tan (ω / 2) := by nlinarith
  have h3 := Real.arctan_strictMono.monotone h2
  linarith

/-- Squared radius of a point scaled by `A / (r omega)`. -/
theorem distorted_sq (A r ω x y : ℝ) (hr : 0 < r) (hω : 0 < ω) (hs : r ^ 2 = x * x + y * y) :
    A / (r * ω) * x * (A / (r * ω) * x) + A / (r * ω) * y * (A / (r * ω) * y) = (A / ω) ^ 2 := by
  have : A / (r * ω) * x * (A / (r * ω) * x) + A / (r * ω) * y * (A / (r * ω) * y)
      = (A / (r * ω)) ^ 2 * (x * x + y * y) := by ring
  rw [this, ← hs]
  field_simp
  ring

/-- Undistortion undoes distortion on the main branch: the distorted radius stays
above the threshold, so `UndistortPoint` does not fall back, and the two scale
factors cancel. -/
theorem Undistort_Distort (P : Fin kIntrinsicsSize → ℝ) (p : ℝ × ℝ)
    (hω : (kVerySmallNumber : ℝ) ≤ P RADIAL_DISTORTION_1)
    (hπ : P RADIAL_DISTORTION_1 < π)
    (hs : (kVerySmallNumber : ℝ) ≤ p.1 * p.1 + p.2 * p.2) :
    UndistortPoint P (DistortPoint P p) = p := by
  obtain ⟨x, y⟩ := p
  simp only at hs
  set ω := P RADIAL_DISTORTION_1 with hωdef
  set r := √(x * x + y * y) with hrdef
  have hr := sqrt_lower hs
  have hr0 : 0 < r := by linarith
  have hω0 : 0 < ω := by
    have := hω; rw [kVerySmallNumber_real] at this
    linarith [show (0:ℝ) < (1 / 10000) ^ 2 by norm_num]
  have hrsq : r ^ 2 = x * x + y * y := Real.sq_sqrt (by nlinarith [mul_self_nonneg x, mul_self_nonneg y])
  have ht := tan_half_pos hω hπ
  have hA := arctan_lower hω hπ hr
  set A := Real.arctan (2 * r * Real.tan (ω / 2)) with hAdef
  have hA0 : 0 < A := by
    have : 0 < ω / 10000 := by positivity
    linarith
  have hD : DistortPoint P (x, y) = (A / (r * ω) * x, A / (r * ω) * y) := DistortPoint_main P (x, y) hω hs
  rw [hD]
  have hq : A / (r * ω) * x * (A / (r * ω) * x) + A / (r * ω) * y * (A / (r * ω) * y) = (A / ω) ^ 2 :=
    distorted_sq A r ω x y hr0 hω0 hrsq
  have hAω : 1 / 10000 ≤ A / ω := by
    rw [le_div_iff₀ hω0]; linarith
  have hs' : (kVerySmallNumber : ℝ) ≤
      (A / (r * ω) * x, A / (r * ω) * y).1 * (A / (r * ω) * x, A / (r * ω) * y).1 +
      (A / (r * ω) * x, A / (r * ω) * y).2 * (A / (r * ω) * x, A / (r * ω) * y).2 := by
    simp only [hq, kVerySmallNumber_real]
    exact pow_le_pow_left₀ (by norm_num) hAω 2
  rw [UndistortPoint_main P _ hω hs']
  simp only [hq]
  rw [Real.sqrt_sq (by positivity)]
  have h1 : A / ω * ω = A := by field_simp
  rw [← hωdef, h1, hAdef, Real.tan_arctan, ← hAdef]
  have : 2 * r * Real.tan (ω / 2) / (2 * (A / ω) * Real.tan (ω / 2)) * (A / (r * ω)) = 1 := by
    field_simp
    ring
  ext
  · show 2 * r * Real.tan (ω / 2) / (2 * (A / ω) * Real.tan (ω / 2)) * (A / (r * ω) * x) = x
    rw [← mul_assoc, this, one_mul]
  · show 2 * r * Real.tan (ω / 2) / (2 * (A / ω) * Real.tan (ω / 2)) * (A / (r * ω) * y) = y
    rw [← mul_assoc, this, one_mul]


/-- The early-return branch of `UndistortPoint`, for every scalar type. -/
theorem UndistortPoint_fallback {T : Type} [Add T] [Sub T] [Mul T] [Div T] [LT T]
    [DecidableRel (fun a b : T => a < b)] [OfScientific T] [CeresScalar T]
    (P : Fin kIntrinsicsSize → T) (q : T × T)
    (h : P RADIAL_DISTORTION_1 < kVerySmallNumber ∨ q.1 * q.1 + q.2 * q.2 < kVerySmallNumber) :
    UndistortPoint P q = q := by
  unfold UndistortPoint
  simp only []
  rw [if_pos h]

/-- Undistortion undoes distortion for every point, degenerate or not, as
long as `omega < pi`. -/
theorem Undistort_Distort_all (P : Fin kIntrinsicsSize → ℝ) (p : ℝ × ℝ)
    (hπ : P RADIAL_DISTORTION_1 < π) :
    UndistortPoint P (DistortPoint P p) = p := by
  by_cases h : P RADIAL_DISTORTION_1 < kVerySmallNumber ∨ p.1 * p.1 + p.2 * p.2 < kVerySmallNumber
  · rw [DistortPoint_fallback P p h, UndistortPoint_fallback P p h]
  · rw [not_or, not_lt, not_lt] at h
    exact Undistort_Distort P p h.1 hπ h.2

/-- C1. Distortion round-trip: for a distortion parameter `omega` with
`1e-8 <= omega < pi` and a normalized point `p` with `|p|^2 >= 1e-8`,
`UndistortPoint (DistortPoint p)` is `p`, exactly over the real numbers (so in
particular within the `1e-6` tolerance). -/
theorem roundtrip_undistort_distort (intrinsic_parameters : Fin kIntrinsicsSize → ℝ)
    (p : ℝ × ℝ)
    (h_omega_lo : (1e-8 : ℝ) ≤ intrinsic_parameters RADIAL_DISTORTION_1)
    (h_omega_hi : intrinsic_parameters RADIAL_DISTORTION_1 < Real.pi)
    (h_radius : (1e-8 : ℝ) ≤ p.1 * p.1 + p.2 * p.2) :
    UndistortPoint intrinsic_parameters (DistortPoint intrinsic_parameters p) = p :=
  Undistort_Distort intrinsic_parameters p h_omega_lo h_omega_hi h_radius

/-- Instance of C1 at `omega = 1`, `p = (1, 0)`. -/
theorem roundtrip_undistort_distort_witness :
    (1e-8 : ℝ) ≤ (fun _ : Fin kIntrinsicsSize => (1 : ℝ)) RADIAL_DISTORTION_1 ∧
    (fun _ : Fin kIntrinsicsSize => (1 : ℝ)) RADIAL_DISTORTION_1 < Real.pi ∧
    (1e-8 : ℝ) ≤ ((1 : ℝ), (0 : ℝ)).1 * ((1 : ℝ), (0 : ℝ)).1 +
      ((1 : ℝ), (0 : ℝ)).2 * ((1 : ℝ), (0 : ℝ)).2 ∧
    UndistortPoint (fun _ : Fin kIntrinsicsSize => (1 : ℝ))
      (DistortPoint (fun _ : Fin kIntrinsicsSize => (1 : ℝ)) ((1 : ℝ), (0 : ℝ))) = ((1 : ℝ), (0 : ℝ)) :=
  ⟨by norm_num, by show (1 : ℝ) < Real.pi; linarith [Real.pi_gt_three], by norm_num,
   roundtrip_undistort_distort _ _ (by norm_num)
     (by show (1 : ℝ) < Real.pi; linarith [Real.pi_gt_three]) (by norm_num)⟩

/-- C2. Identity fallback of `DistortPoint`: when `omega < 1e-8` or
`p.x^2 + p.y^2 < 1e-8` the method returns `p` itself, both coordinates
unchanged.  It holds for every scalar type `T` the template is instantiated
with. -/
theorem fallback_distort_identity {T : Type} [Add T] [Sub T] [Mul T] [Div T] [LT T]
    [DecidableRel (fun a b : T => a < b)] [OfScientific T] [CeresScalar T]
    (intrinsic_parameters : Fin kIntrinsicsSize → T) (p : T × T)
    (h : intrinsic_parameters RADIAL_DISTORTION_1 < (1e-8 : T) ∨
         p.1 * p.1 + p.2 * p.2 < (1e-8 : T)) :
    DistortPoint intrinsic_parameters p = p ∧
    (DistortPoint intrinsic_parameters p).1 = p.1 ∧
    (DistortPoint intrinsic_parameters p).2 = p.2 := by
  have := DistortPoint_fallback intrinsic_parameters p h
  exact ⟨this, by rw [this], by rw [this]⟩

/-- Instance of C2 over the reals at `omega = 0`, `p = (3, 4)`. -/
theorem fallback_distort_identity_witness :
    ((fun _ : Fin kIntrinsicsSize => (0 : ℝ)) RADIAL_DISTORTION_1 < (1e-8 : ℝ) ∨
      ((3 : ℝ), (4 : ℝ)).1 * ((3 : ℝ), (4 : ℝ)).1 + ((3 : ℝ), (4 : ℝ)).2 * ((3 : ℝ), (4 : ℝ)).2
        < (1e-8 : ℝ)) ∧
    DistortPoint (fun _ : Fin kIntrinsicsSize => (0 : ℝ)) ((3 : ℝ), (4 : ℝ)) = ((3 : ℝ), (4 : ℝ)) :=
  ⟨Or.inl (by norm_num),
   (fallback_distort_identity (fun _ : Fin kIntrinsicsSize => (0 : ℝ)) ((3 : ℝ), (4 : ℝ))
      (Or.inl (by norm_num))).1⟩

/-- C3. Degenerate undistortion: when `omega < 1e-8` or
`q.x^2 + q.y^2 < 1e-8`, `UndistortPoint` returns `q` itself and performs no
division at all (its list of divisors is empty), so it divides neither by the
near-zero radius nor by `tan(omega/2)`. -/
theorem fallback_undistort_identity_no_division {T : Type} [Add T] [Sub T] [Mul T] [Div T] [LT T]
    [DecidableRel (fun a b : T => a < b)] [OfScientific T] [CeresScalar T]
    (intrinsic_parameters : Fin kIntrinsicsSize → T) (q : T × T)
    (h : intrinsic_parameters RADIAL_DISTORTION_1 < (1e-8 : T) ∨
         q.1 * q.1 + q.2 * q.2 < (1e-8 : T)) :
    UndistortPoint intrinsic_parameters q = q ∧
    UndistortPointDivisors intrinsic_parameters q = [] := by
  refine ⟨UndistortPoint_fallback intrinsic_parameters q h, ?_⟩
  unfold UndistortPointDivisors
  exact if_pos h

/-- Instance of C3 over the reals at `omega = 1`, `q = (0, 0)`. -/
theorem fallback_undistort_identity_no_division_witness :
    ((fun _ : Fin kIntrinsicsSize => (1 : ℝ)) RADIAL_DISTORTION_1 < (1e-8 : ℝ) ∨
      ((0 : ℝ), (0 : ℝ)).1 * ((0 : ℝ), (0 : ℝ)).1 + ((0 : ℝ), (0 : ℝ)).2 * ((0 : ℝ), (0 : ℝ)).2
        < (1e-8 : ℝ)) ∧
    UndistortPoint (fun _ : Fin kIntrinsicsSize => (1 : ℝ)) ((0 : ℝ), (0 : ℝ)) = ((0 : ℝ), (0 : ℝ)) ∧
    UndistortPointDivisors (fun _ : Fin kIntrinsicsSize => (1 : ℝ)) ((0 : ℝ), (0 : ℝ)) = [] :=
  ⟨Or.inr (by norm_num),
   fallback_undistort_identity_no_division (fun _ : Fin kIntrinsicsSize => (1 : ℝ)) ((0 : ℝ), (0 : ℝ))
      (Or.inr (by norm_num))⟩


/-- Scaling a point scales its radius by the absolute value of the factor. -/
theorem radius_smul (c x y : ℝ) : radius (c * x, c * y) = |c| * radius (x, y) := by
  unfold radius
  have : c * x * (c * x) + c * y * (c * y) = c ^ 2 * (x * x + y * y) := by ring
  simp only [this]
  rw [Real.sqrt_mul (sq_nonneg c), Real.sqrt_sq_eq_abs]

/-- Entry `RADIAL_DISTORTION_1` of an explicit parameter array. -/
theorem intrinsics_omega (f a cx cy ω : ℝ) : intrinsics f a cx cy ω RADIAL_DISTORTION_1 = ω := rfl

/-- The radius of `(1/2, 0)`. -/
theorem sqrt_quarter : √((1 / 2 : ℝ) * (1 / 2) + 0 * 0) = 1 / 2 := by
  have : ((1 / 2 : ℝ) * (1 / 2) + 0 * 0) = (1 / 2) ^ 2 := by norm_num
  rw [this, Real.sqrt_sq (by norm_num)]

/-- The parameter `omega = pi/2` is above the threshold. -/
theorem pi_half_lo : (kVerySmallNumber : ℝ) ≤ π / 2 := by
  rw [kVerySmallNumber_real]; nlinarith [Real.pi_gt_three]

/-- `DistortPoint` at `omega = pi/2`, `p = (1/2, 0)`: the scale factor is `1`. -/
theorem DistortPoint_half :
    DistortPoint (intrinsics 1 1 0 0 (π / 2)) ((1 / 2 : ℝ), (0 : ℝ)) = (1 / 2, 0) := by
  rw [DistortPoint_main _ _ (by rw [intrinsics_omega]; exact pi_half_lo)
    (by rw [kVerySmallNumber_real]; norm_num)]
  simp only [intrinsics_omega, sqrt_quarter]
  have h1 : π / 2 / 2 = π / 4 := by ring
  rw [h1, Real.tan_pi_div_four]
  have h2 : (2 : ℝ) * (1 / 2) * 1 = 1 := by norm_num
  rw [h2, Real.arctan_one]
  have h3 : π / 4 / (1 / 2 * (π / 2)) = 1 := by
    field_simp
    ring
  rw [h3]
  norm_num

/-- `UndistortPoint` at `omega = pi/2`, `q = (1/2, 0)`: the scale factor is `1`. -/
theorem UndistortPoint_half :
    UndistortPoint (intrinsics 1 1 0 0 (π / 2)) ((1 / 2 : ℝ), (0 : ℝ)) = (1 / 2, 0) := by
  rw [UndistortPoint_main _ _ (by rw [intrinsics_omega]; exact pi_half_lo)
    (by rw [kVerySmallNumber_real]; norm_num)]
  simp only [intrinsics_omega, sqrt_quarter]
  have h1 : π / 2 / 2 = π / 4 := by ring
  have h1' : 1 / 2 * (π / 2) = π / 4 := by ring
  rw [h1, h1', Real.tan_pi_div_four]
  norm_num

/-- C4, counterexample: at `omega = pi/2` and `p = (1/2, 0)` (both above the
threshold) the point returned by `DistortPoint` has radius `1/2`, while
`atan(2 r_u tan(omega/2)) / (r_u omega)` is `1`. -/
theorem radius_law_distort_counterexample :
    (1e-8 : ℝ) ≤ intrinsics 1 1 0 0 (Real.pi / 2) RADIAL_DISTORTION_1 ∧
    (1e-8 : ℝ) ≤ ((1 / 2 : ℝ), (0 : ℝ)).1 * ((1 / 2 : ℝ), (0 : ℝ)).1 +
      ((1 / 2 : ℝ), (0 : ℝ)).2 * ((1 / 2 : ℝ), (0 : ℝ)).2 ∧
    radius (DistortPoint (intrinsics 1 1 0 0 (Real.pi / 2)) ((1 / 2 : ℝ), (0 : ℝ))) ≠
      Real.arctan (2 * radius ((1 / 2 : ℝ), (0 : ℝ)) *
          Real.tan (intrinsics 1 1 0 0 (Real.pi / 2) RADIAL_DISTORTION_1 / 2)) /
        (radius ((1 / 2 : ℝ), (0 : ℝ)) * intrinsics 1 1 0 0 (Real.pi / 2) RADIAL_DISTORTION_1) := by
  refine ⟨pi_half_lo, by norm_num, ?_⟩
  rw [DistortPoint_half, intrinsics_omega]
  unfold radius
  simp only [sqrt_quarter]
  have h1 : π / 2 / 2 = π / 4 := by ring
  rw [h1, Real.tan_pi_div_four]
  have h2 : (2 : ℝ) * (1 / 2) * 1 = 1 := by norm_num
  rw [h2, Real.arctan_one]
  have h3 : π / 4 / (1 / 2 * (π / 2)) = 1 := by
    field_simp
    ring
  rw [h3]
  norm_num

/-- C4, amended: for `omega >= 1e-8` and `r_u^2 >= 1e-8`, `DistortPoint`
returns `p` scaled by `r_d = atan(2 r_u tan(omega/2)) / (r_u omega)` (the
quantity the code names `r_d` is the scale factor), and the radius of the
returned point is `|atan(2 r_u tan(omega/2))| / omega`. -/
theorem scale_law_distort (intrinsic_parameters : Fin kIntrinsicsSize → ℝ) (p : ℝ × ℝ)
    (h_omega : (1e-8 : ℝ) ≤ intrinsic_parameters RADIAL_DISTORTION_1)
    (h_radius : (1e-8 : ℝ) ≤ p.1 * p.1 + p.2 * p.2) :
    DistortPoint intrinsic_parameters p =
      (Real.arctan (2 * radius p * Real.tan (intrinsic_parameters RADIAL_DISTORTION_1 / 2)) /
          (radius p * intrinsic_parameters RADIAL_DISTORTION_1) * p.1,
       Real.arctan (2 * radius p * Real.tan (intrinsic_parameters RADIAL_DISTORTION_1 / 2)) /
          (radius p * intrinsic_parameters RADIAL_DISTORTION_1) * p.2) ∧
    radius (DistortPoint intrinsic_parameters p) =
      |Real.arctan (2 * radius p * Real.tan (intrinsic_parameters RADIAL_DISTORTION_1 / 2))| /
        intrinsic_parameters RADIAL_DISTORTION_1 := by
  obtain ⟨x, y⟩ := p
  have hD : DistortPoint intrinsic_parameters (x, y) =
      (Real.arctan (2 * radius (x, y) * Real.tan (intrinsic_parameters RADIAL_DISTORTION_1 / 2)) /
          (radius (x, y) * intrinsic_parameters RADIAL_DISTORTION_1) * x,
       Real.arctan (2 * radius (x, y) * Real.tan (intrinsic_parameters RADIAL_DISTORTION_1 / 2)) /
          (radius (x, y) * intrinsic_parameters RADIAL_DISTORTION_1) * y) :=
    DistortPoint_main intrinsic_parameters (x, y) h_omega h_radius
  refine ⟨hD, ?_⟩
  rw [hD, radius_smul]
  have hr : 0 < radius (x, y) := by
    have := sqrt_lower h_radius
    unfold radius; linarith
  have hω0 : 0 < intrinsic_parameters RADIAL_DISTORTION_1 := by
    have := h_omega
    linarith [show (0:ℝ) < 1e-8 by norm_num]
  rw [abs_div, abs_of_pos (mul_pos hr hω0)]
  field_simp
  ring

/-- Instance of the amended C4 at `omega = 1`, `p = (3, 4)`. -/
theorem scale_law_distort_witness :
    (1e-8 : ℝ) ≤ intrinsics 1 1 0 0 (1 : ℝ) RADIAL_DISTORTION_1 ∧
    (1e-8 : ℝ) ≤ ((3 : ℝ), (4 : ℝ)).1 * ((3 : ℝ), (4 : ℝ)).1 +
      ((3 : ℝ), (4 : ℝ)).2 * ((3 : ℝ), (4 : ℝ)).2 ∧
    radius (DistortPoint (intrinsics 1 1 0 0 (1 : ℝ)) ((3 : ℝ), (4 : ℝ))) =
      |Real.arctan (2 * radius ((3 : ℝ), (4 : ℝ)) *
          Real.tan (intrinsics 1 1 0 0 (1 : ℝ) RADIAL_DISTORTION_1 / 2))| /
        intrinsics 1 1 0 0 (1 : ℝ) RADIAL_DISTORTION_1 :=
  ⟨by rw [intrinsics_omega]; norm_num, by norm_num,
   (scale_law_distort (intrinsics 1 1 0 0 (1 : ℝ)) ((3 : ℝ), (4 : ℝ))
      (by rw [intrinsics_omega]; norm_num) (by norm_num)).2⟩


/-- C5, counterexample: at `omega = pi/2` and `q = (1/2, 0)` (both above the
threshold) the point returned by `UndistortPoint` has radius `1/2`, while
`tan(r_d omega) / (2 r_d tan(omega/2))` is `1`. -/
theorem radius_law_undistort_counterexample :
    (1e-8 : ℝ) ≤ intrinsics 1 1 0 0 (Real.pi / 2) RADIAL_DISTORTION_1 ∧
    (1e-8 : ℝ) ≤ ((1 / 2 : ℝ), (0 : ℝ)).1 * ((1 / 2 : ℝ), (0 : ℝ)).1 +
      ((1 / 2 : ℝ), (0 : ℝ)).2 * ((1 / 2 : ℝ), (0 : ℝ)).2 ∧
    radius (UndistortPoint (intrinsics 1 1 0 0 (Real.pi / 2)) ((1 / 2 : ℝ), (0 : ℝ))) ≠
      Real.tan (radius ((1 / 2 : ℝ), (0 : ℝ)) *
          intrinsics 1 1 0 0 (Real.pi / 2) RADIAL_DISTORTION_1) /
        (2 * radius ((1 / 2 : ℝ), (0 : ℝ)) *
          Real.tan (intrinsics 1 1 0 0 (Real.pi / 2) RADIAL_DISTORTION_1 / 2)) := by
  refine ⟨pi_half_lo, by norm_num, ?_⟩
  rw [UndistortPoint_half, intrinsics_omega]
  unfold radius
  simp only [sqrt_quarter]
  have h1 : π / 2 / 2 = π / 4 := by ring
  have h1' : 1 / 2 * (π / 2) = π / 4 := by ring
  rw [h1, h1', Real.tan_pi_div_four]
  norm_num

/-- C5, amended: for `omega >= 1e-8` and `r_d^2 >= 1e-8`, `UndistortPoint`
returns `q` scaled by `r_u = tan(r_d omega) / (2 r_d tan(omega/2))` (the
quantity the code names `r_u` is the scale factor), and the radius of the
returned point is `|tan(r_d omega) / (2 tan(omega/2))|`. -/
theorem scale_law_undistort (intrinsic_parameters : Fin kIntrinsicsSize → ℝ) (q : ℝ × ℝ)
    (h_omega : (1e-8 : ℝ) ≤ intrinsic_parameters RADIAL_DISTORTION_1)
    (h_radius : (1e-8 : ℝ) ≤ q.1 * q.1 + q.2 * q.2) :
    UndistortPoint intrinsic_parameters q =
      (Real.tan (radius q * intrinsic_parameters RADIAL_DISTORTION_1) /
          (2 * radius q * Real.tan (intrinsic_parameters RADIAL_DISTORTION_1 / 2)) * q.1,
       Real.tan (radius q * intrinsic_parameters RADIAL_DISTORTION_1) /
          (2 * radius q * Real.tan (intrinsic_parameters RADIAL_DISTORTION_1 / 2)) * q.2) ∧
    radius (UndistortPoint intrinsic_parameters q) =
      |Real.tan (radius q * intrinsic_parameters RADIAL_DISTORTION_1) /
        (2 * Real.tan (intrinsic_parameters RADIAL_DISTORTION_1 / 2))| := by
  obtain ⟨x, y⟩ := q
  have hU : UndistortPoint intrinsic_parameters (x, y) =
      (Real.tan (radius (x, y) * intrinsic_parameters RADIAL_DISTORTION_1) /
          (2 * radius (x, y) * Real.tan (intrinsic_parameters RADIAL_DISTORTION_1 / 2)) * x,
       Real.tan (radius (x, y) * intrinsic_parameters RADIAL_DISTORTION_1) /
          (2 * radius (x, y) * Real.tan (intrinsic_parameters RADIAL_DISTORTION_1 / 2)) * y) :=
    UndistortPoint_main intrinsic_parameters (x, y) h_omega h_radius
  refine ⟨hU, ?_⟩
  rw [hU, radius_smul]
  have hr : 0 < radius (x, y) := by
    have := sqrt_lower h_radius
    unfold radius; linarith
  have hsplit : ∀ B t : ℝ, B / (2 * radius (x, y) * t) = B / (2 * t) / radius (x, y) := by
    intro B t
    rw [div_div]
    congr 1
    ring
  rw [hsplit, abs_div, abs_of_pos hr, div_mul_cancel₀ _ hr.ne']

/-- Instance of the amended C5 at `omega = 1`, `q = (3, 4)`. -/
theorem scale_law_undistort_witness :
    (1e-8 : ℝ) ≤ intrinsics 1 1 0 0 (1 : ℝ) RADIAL_DISTORTION_1 ∧
    (1e-8 : ℝ) ≤ ((3 : ℝ), (4 : ℝ)).1 * ((3 : ℝ), (4 : ℝ)).1 +
      ((3 : ℝ), (4 : ℝ)).2 * ((3 : ℝ), (4 : ℝ)).2 ∧
    radius (UndistortPoint (intrinsics 1 1 0 0 (1 : ℝ)) ((3 : ℝ), (4 : ℝ))) =
      |Real.tan (radius ((3 : ℝ), (4 : ℝ)) * intrinsics 1 1 0 0 (1 : ℝ) RADIAL_DISTORTION_1) /
        (2 * Real.tan (intrinsics 1 1 0 0 (1 : ℝ) RADIAL_DISTORTION_1 / 2))| :=
  ⟨by rw [intrinsics_omega]; norm_num, by norm_num,
   (scale_law_undistort (intrinsics 1 1 0 0 (1 : ℝ)) ((3 : ℝ), (4 : ℝ))
      (by rw [intrinsics_omega]; norm_num) (by norm_num)).2⟩

/-- The radius of `(2, 0)`. -/
theorem sqrt_four : √((2 : ℝ) * 2 + 0 * 0) = 2 := by
  have : ((2 : ℝ) * 2 + 0 * 0) = 2 ^ 2 := by norm_num
  rw [this, Real.sqrt_sq (by norm_num)]

/-- `UndistortPoint` at `omega = pi/2`, `q = (2, 0)`: `tan(r_d * omega) = tan pi = 0`
collapses the point to the origin. -/
theorem UndistortPoint_two :
    UndistortPoint (intrinsics 1 1 0 0 (π / 2)) ((2 : ℝ), (0 : ℝ)) = (0, 0) := by
  rw [UndistortPoint_main _ _ (by rw [intrinsics_omega]; exact pi_half_lo)
    (by rw [kVerySmallNumber_real]; norm_num)]
  simp only [intrinsics_omega, sqrt_four]
  have h1 : 2 * (π / 2) = π := by ring
  rw [h1, Real.tan_pi]
  norm_num

/-- C6, counterexample: at `omega = pi/2` (inside `[1e-8, pi)`) and
`q = (2, 0)`, `r_d * omega = pi`, so `UndistortPoint` returns the origin and
`DistortPoint` (identity fallback) leaves it there: the first coordinate is
`2` away from `q`, not within `1e-6`. -/
theorem roundtrip_distort_undistort_counterexample :
    (1e-8 : ℝ) ≤ intrinsics 1 1 0 0 (Real.pi / 2) RADIAL_DISTORTION_1 ∧
    intrinsics 1 1 0 0 (Real.pi / 2) RADIAL_DISTORTION_1 < Real.pi ∧
    (1e-8 : ℝ) ≤ ((2 : ℝ), (0 : ℝ)).1 * ((2 : ℝ), (0 : ℝ)).1 +
      ((2 : ℝ), (0 : ℝ)).2 * ((2 : ℝ), (0 : ℝ)).2 ∧
    DistortPoint (intrinsics 1 1 0 0 (Real.pi / 2))
      (UndistortPoint (intrinsics 1 1 0 0 (Real.pi / 2)) ((2 : ℝ), (0 : ℝ))) = (0, 0) ∧
    ¬ |(DistortPoint (intrinsics 1 1 0 0 (Real.pi / 2))
        (UndistortPoint (intrinsics 1 1 0 0 (Real.pi / 2)) ((2 : ℝ), (0 : ℝ)))).1
        - ((2 : ℝ), (0 : ℝ)).1| ≤ (1e-6 : ℝ) := by
  have hD : DistortPoint (intrinsics 1 1 0 0 (Real.pi / 2))
      (UndistortPoint (intrinsics 1 1 0 0 (Real.pi / 2)) ((2 : ℝ), (0 : ℝ))) = (0, 0) := by
    rw [UndistortPoint_two]
    exact DistortPoint_fallback _ _ (Or.inr (by rw [kVerySmallNumber_real]; norm_num))
  refine ⟨pi_half_lo, ?_, by norm_num, hD, ?_⟩
  · rw [intrinsics_omega]; linarith [Real.pi_pos]
  · rw [hD]; norm_num

/-- C6, amended: for `1e-8 <= omega < pi` and a distorted point `q` with
`|q|^2 >= 1e-8` that lies inside the field of view, `|q| * omega < pi/2`, and
whose undistorted image is itself outside the fallback range,
`|UndistortPoint q|^2 >= 1e-8`, `DistortPoint (UndistortPoint q)` is `q`
exactly. -/
theorem roundtrip_distort_undistort_guarded (intrinsic_parameters : Fin kIntrinsicsSize → ℝ)
    (q : ℝ × ℝ)
    (h_omega_lo : (1e-8 : ℝ) ≤ intrinsic_parameters RADIAL_DISTORTION_1)
    (h_omega_hi : intrinsic_parameters RADIAL_DISTORTION_1 < Real.pi)
    (h_radius : (1e-8 : ℝ) ≤ q.1 * q.1 + q.2 * q.2)
    (h_angle : radius q * intrinsic_parameters RADIAL_DISTORTION_1 < Real.pi / 2)
    (h_undistorted : (1e-8 : ℝ) ≤
      (UndistortPoint intrinsic_parameters q).1 * (UndistortPoint intrinsic_parameters q).1 +
      (UndistortPoint intrinsic_parameters q).2 * (UndistortPoint intrinsic_parameters q).2) :
    DistortPoint intrinsic_parameters (UndistortPoint intrinsic_parameters q) = q := by
  obtain ⟨x, y⟩ := q
  simp only at h_radius
  unfold radius at h_angle
  simp only at h_angle
  set ω := intrinsic_parameters RADIAL_DISTORTION_1 with hωdef
  set r := √(x * x + y * y) with hrdef
  have hr := sqrt_lower h_radius
  have hr0 : 0 < r := by linarith
  have hω0 : 0 < ω := by linarith [show (0:ℝ) < 1e-8 by norm_num]
  have hrsq : r ^ 2 = x * x + y * y :=
    Real.sq_sqrt (by nlinarith [mul_self_nonneg x, mul_self_nonneg y])
  have ht := tan_half_pos h_omega_lo h_omega_hi
  have hB0 : 0 < Real.tan (r * ω) :=
    Real.tan_pos_of_pos_of_lt_pi_div_two (mul_pos hr0 hω0) h_angle
  set B := Real.tan (r * ω) with hBdef
  set t := Real.tan (ω / 2) with htdef
  have hU : UndistortPoint intrinsic_parameters (x, y) = (B / (2 * r * t) * x, B / (2 * r * t) * y) :=
    UndistortPoint_main intrinsic_parameters (x, y) h_omega_lo h_radius
  rw [hU] at h_undistorted ⊢
  have hq : B / (2 * r * t) * x * (B / (2 * r * t) * x) + B / (2 * r * t) * y * (B / (2 * r * t) * y)
      = (B / (2 * t)) ^ 2 := by
    have : B / (2 * r * t) * x * (B / (2 * r * t) * x) + B / (2 * r * t) * y * (B / (2 * r * t) * y)
        = (B / (2 * r * t)) ^ 2 * (x * x + y * y) := by ring
    rw [this, ← hrsq]
    field_simp
    ring
  rw [DistortPoint_main intrinsic_parameters _ h_omega_lo h_undistorted]
  simp only [hq]
  rw [Real.sqrt_sq (by positivity)]
  have h1 : 2 * (B / (2 * t)) * t = B := by
    field_simp
    ring
  rw [← hωdef, ← htdef, h1, hBdef,
    Real.arctan_tan (by linarith [mul_pos hr0 hω0, Real.pi_pos]) h_angle, ← hBdef]
  have : r * ω / (B / (2 * t) * ω) * (B / (2 * r * t)) = 1 := by
    field_simp
    ring
  ext
  · show r * ω / (B / (2 * t) * ω) * (B / (2 * r * t) * x) = x
    rw [← mul_assoc, this, one_mul]
  · show r * ω / (B / (2 * t) * ω) * (B / (2 * r * t) * y) = y
    rw [← mul_assoc, this, one_mul]


/-- Instance of the amended C6 at `omega = pi/2`, `q = (1/2, 0)`. -/
theorem roundtrip_distort_undistort_guarded_witness :
    (1e-8 : ℝ) ≤ intrinsics 1 1 0 0 (Real.pi / 2) RADIAL_DISTORTION_1 ∧
    intrinsics 1 1 0 0 (Real.pi / 2) RADIAL_DISTORTION_1 < Real.pi ∧
    (1e-8 : ℝ) ≤ ((1 / 2 : ℝ), (0 : ℝ)).1 * ((1 / 2 : ℝ), (0 : ℝ)).1 +
      ((1 / 2 : ℝ), (0 : ℝ)).2 * ((1 / 2 : ℝ), (0 : ℝ)).2 ∧
    radius ((1 / 2 : ℝ), (0 : ℝ)) * intrinsics 1 1 0 0 (Real.pi / 2) RADIAL_DISTORTION_1
      < Real.pi / 2 ∧
    DistortPoint (intrinsics 1 1 0 0 (Real.pi / 2))
      (UndistortPoint (intrinsics 1 1 0 0 (Real.pi / 2)) ((1 / 2 : ℝ), (0 : ℝ)))
      = ((1 / 2 : ℝ), (0 : ℝ)) := by
  have hlt : intrinsics 1 1 0 0 (Real.pi / 2) RADIAL_DISTORTION_1 < Real.pi := by
    rw [intrinsics_omega]; linarith [Real.pi_pos]
  have hang : radius ((1 / 2 : ℝ), (0 : ℝ)) *
      intrinsics 1 1 0 0 (Real.pi / 2) RADIAL_DISTORTION_1 < Real.pi / 2 := by
    rw [intrinsics_omega]
    unfold radius
    simp only [sqrt_quarter]
    linarith [Real.pi_pos]
  exact ⟨pi_half_lo, hlt, by norm_num, hang,
    roundtrip_distort_undistort_guarded (intrinsics 1 1 0 0 (Real.pi / 2)) ((1 / 2 : ℝ), (0 : ℝ))
      pi_half_lo hlt (by norm_num) hang (by rw [UndistortPoint_half]; norm_num)⟩

/-- C7. `CameraToPixelCoordinates` of `(x, y, z)` is
`(f * d_x + c_x, f * aspect * d_y + c_y)` with
`(d_x, d_y) = DistortPoint (x / z, y / z)`: perspective divide, distortion,
then focal length and principal point.  The equation holds for every scalar
type and every depth, in particular for `z != 0`. -/
theorem camera_to_pixel_formula {T : Type} [Add T] [Sub T] [Mul T] [Div T] [LT T]
    [DecidableRel (fun a b : T => a < b)] [OfScientific T] [CeresScalar T]
    (intrinsic_parameters : Fin kIntrinsicsSize → T) (x y z : T) :
    CameraToPixelCoordinates intrinsic_parameters (x, y, z) =
      (intrinsic_parameters FOCAL_LENGTH *
          (DistortPoint intrinsic_parameters (x / z, y / z)).1 +
        intrinsic_parameters PRINCIPAL_POINT_X,
       intrinsic_parameters FOCAL_LENGTH * intrinsic_parameters ASPECT_RATIO *
          (DistortPoint intrinsic_parameters (x / z, y / z)).2 +
        intrinsic_parameters PRINCIPAL_POINT_Y) :=
  rfl

/-- C9. The point returned by `PixelToCameraCoordinates` for the pixel
`(u, v)` has third coordinate `1`, and its first two coordinates are
`UndistortPoint ((u - c_x) / f, (v - c_y) / (f * aspect))`. -/
theorem pixel_to_camera_formula (intrinsic_parameters : Fin kIntrinsicsSize → ℝ) (u v : ℝ) :
    (PixelToCameraCoordinates intrinsic_parameters (u, v)).2.2 = 1 ∧
    ((PixelToCameraCoordinates intrinsic_parameters (u, v)).1,
     (PixelToCameraCoordinates intrinsic_parameters (u, v)).2.1) =
      UndistortPoint intrinsic_parameters
        ((u - intrinsic_parameters PRINCIPAL_POINT_X) / intrinsic_parameters FOCAL_LENGTH,
         (v - intrinsic_parameters PRINCIPAL_POINT_Y) /
           (intrinsic_parameters FOCAL_LENGTH * intrinsic_parameters ASPECT_RATIO)) := by
  refine ⟨?_, rfl⟩
  show (1.0 : ℝ) = 1
  norm_num

/-- C8. `PixelToCameraCoordinates` inverts `CameraToPixelCoordinates`: for
`f != 0`, `aspect != 0`, `omega < pi` and a point `(x, y, z)` with `z != 0`,
projecting and back-projecting gives the ray `(x / z, y / z, 1)`, whether or
not the identity fallback is taken. -/
theorem pixel_to_camera_inverts_projection
    (intrinsic_parameters : Fin kIntrinsicsSize → ℝ) (x y z : ℝ)
    (h_focal : intrinsic_parameters FOCAL_LENGTH ≠ 0)
    (h_aspect : intrinsic_parameters ASPECT_RATIO ≠ 0)
    (h_omega : intrinsic_parameters RADIAL_DISTORTION_1 < Real.pi)
    (h_depth : z ≠ 0) :
    PixelToCameraCoordinates intrinsic_parameters
      (CameraToPixelCoordinates intrinsic_parameters (x, y, z)) = (x / z, y / z, 1) := by
  have _ := h_depth
  have hround := Undistort_Distort_all intrinsic_parameters (x / z, y / z) h_omega
  unfold PixelToCameraCoordinates CameraToPixelCoordinates
  simp only []
  have h1 : (intrinsic_parameters FOCAL_LENGTH *
        (DistortPoint intrinsic_parameters (x / z, y / z)).1 +
      intrinsic_parameters PRINCIPAL_POINT_X - intrinsic_parameters PRINCIPAL_POINT_X) /
      intrinsic_parameters FOCAL_LENGTH = (DistortPoint intrinsic_parameters (x / z, y / z)).1 := by
    field_simp
  have h2 : (intrinsic_parameters FOCAL_LENGTH * intrinsic_parameters ASPECT_RATIO *
        (DistortPoint intrinsic_parameters (x / z, y / z)).2 +
      intrinsic_parameters PRINCIPAL_POINT_Y - intrinsic_parameters PRINCIPAL_POINT_Y) /
      (intrinsic_parameters FOCAL_LENGTH * intrinsic_parameters ASPECT_RATIO) =
      (DistortPoint intrinsic_parameters (x / z, y / z)).2 := by
    field_simp
  rw [h1, h2, Prod.mk.eta, hround]
  norm_num

/-- Instance of C8 at `f = 2`, `aspect = 1`, `c = (3, 4)`, `omega = 1` and the point `(6, 8, 2)`. -/
theorem pixel_to_camera_inverts_projection_witness :
    intrinsics (2 : ℝ) 1 3 4 1 FOCAL_LENGTH ≠ 0 ∧
    intrinsics (2 : ℝ) 1 3 4 1 ASPECT_RATIO ≠ 0 ∧
    intrinsics (2 : ℝ) 1 3 4 1 RADIAL_DISTORTION_1 < Real.pi ∧
    (2 : ℝ) ≠ 0 ∧
    PixelToCameraCoordinates (intrinsics (2 : ℝ) 1 3 4 1)
      (CameraToPixelCoordinates (intrinsics (2 : ℝ) 1 3 4 1) ((6 : ℝ), (8 : ℝ), (2 : ℝ)))
      = ((6 : ℝ) / 2, (8 : ℝ) / 2, 1) := by
  have hf : intrinsics (2 : ℝ) 1 3 4 1 FOCAL_LENGTH ≠ 0 := by
    show (2 : ℝ) ≠ 0; norm_num
  have ha : intrinsics (2 : ℝ) 1 3 4 1 ASPECT_RATIO ≠ 0 := by
    show (1 : ℝ) ≠ 0; norm_num
  have hω : intrinsics (2 : ℝ) 1 3 4 1 RADIAL_DISTORTION_1 < Real.pi := by
    show (1 : ℝ) < Real.pi; linarith [Real.pi_gt_three]
  exact ⟨hf, ha, hω, by norm_num,
    pixel_to_camera_inverts_projection (intrinsics (2 : ℝ) 1 3 4 1) 6 8 2 hf ha hω
      (by norm_num)⟩


/-- The hypothesis of `roundtrip_distort_undistort_guarded` that the undistorted point
stays out of the fallback range cannot be dropped: at `omega = pi/2` and
`q = (1/10000, 0)` undistortion shrinks the radius below the threshold, so
`DistortPoint` returns the shrunk point unchanged, more than `1e-6` away
from `q`. -/
theorem undistort_shrinks_into_fallback :
    (1e-8 : ℝ) ≤ ((1 / 10000 : ℝ), (0 : ℝ)).1 * ((1 / 10000 : ℝ), (0 : ℝ)).1 +
      ((1 / 10000 : ℝ), (0 : ℝ)).2 * ((1 / 10000 : ℝ), (0 : ℝ)).2 ∧
    radius ((1 / 10000 : ℝ), (0 : ℝ)) * intrinsics 1 1 0 0 (Real.pi / 2) RADIAL_DISTORTION_1
      < Real.pi / 2 ∧
    ¬ |(DistortPoint (intrinsics 1 1 0 0 (Real.pi / 2))
        (UndistortPoint (intrinsics 1 1 0 0 (Real.pi / 2)) ((1 / 10000 : ℝ), (0 : ℝ)))).1
        - ((1 / 10000 : ℝ), (0 : ℝ)).1| ≤ (1e-6 : ℝ) := by
  have hsqrt : √((1 / 10000 : ℝ) * (1 / 10000) + 0 * 0) = 1 / 10000 := by
    have : ((1 / 10000 : ℝ) * (1 / 10000) + 0 * 0) = (1 / 10000) ^ 2 := by norm_num
    rw [this, Real.sqrt_sq (by norm_num)]
  have hπ3 := Real.pi_gt_three
  have hπ4 : π < 4 := Real.pi_lt_d2.trans (by norm_num)
  have harg : (1 / 10000 : ℝ) * (π / 2) = 3 / 10000 * (π / 6) := by ring
  have hB1 : Real.tan (1 / 10000 * (π / 2)) ≤ 3 / 10000 * Real.tan (π / 6) := by
    rw [harg]
    exact tan_mul_le_mul_tan (by norm_num) (by norm_num) (by positivity) (by linarith)
  have hs3 : (5 / 3 : ℝ) ≤ √3 := Real.le_sqrt_of_sq_le (by norm_num)
  have htan6 : Real.tan (π / 6) ≤ 3 / 5 := by
    rw [Real.tan_pi_div_six, div_le_iff₀ (by positivity)]
    linarith
  have hB0 : 0 ≤ Real.tan (1 / 10000 * (π / 2)) :=
    Real.tan_nonneg_of_nonneg_of_le_pi_div_two (by positivity) (by nlinarith)
  have hB : Real.tan (1 / 10000 * (π / 2)) ≤ 18 / 100000 := by linarith
  have hU : UndistortPoint (intrinsics 1 1 0 0 (π / 2)) ((1 / 10000 : ℝ), (0 : ℝ)) =
      (Real.tan (1 / 10000 * (π / 2)) / 2, 0) := by
    rw [UndistortPoint_main _ _ (by rw [intrinsics_omega]; exact pi_half_lo)
      (by rw [kVerySmallNumber_real]; norm_num)]
    simp only [intrinsics_omega, hsqrt]
    have h1 : π / 2 / 2 = π / 4 := by ring
    rw [h1, Real.tan_pi_div_four]
    ext
    · show Real.tan (1 / 10000 * (π / 2)) / (2 * (1 / 10000) * 1) * (1 / 10000) = _
      ring
    · show Real.tan (1 / 10000 * (π / 2)) / (2 * (1 / 10000) * 1) * 0 = 0
      ring
  refine ⟨by norm_num, ?_, ?_⟩
  · rw [intrinsics_omega]
    unfold radius
    simp only [hsqrt]
    nlinarith
  · rw [hU, DistortPoint_fallback _ _ (Or.inr (by
      rw [kVerySmallNumber_real]
      show Real.tan (1 / 10000 * (π / 2)) / 2 * (Real.tan (1 / 10000 * (π / 2)) / 2) + 0 * 0
        < (1 / 10000) ^ 2
      nlinarith))]
    show ¬ |Real.tan (1 / 10000 * (π / 2)) / 2 - 1 / 10000| ≤ (1e-6 : ℝ)
    rw [abs_of_nonpos (by linarith)]
    norm_num
    linarith

end FOVCameraModel

/-! ## Theorems: view-graph filter -/

/-- Connectivity is monotone in the key list. -/
theorem Connected_mono {keys keys' : List ViewIdPair} (h : ∀ e ∈ keys, e ∈ keys') {a b : ViewId}
    (hab : Connected keys a b) : Connected keys' a b :=
  Relation.EqvGen.mono (fun x y hxy => h (x, y) hxy) hab

/-- After `AddEdge`, the representative of a view depends only on its old representative. -/
theorem AddEdge_congr (find : ViewId → ViewId) (x y a b : ViewId) (h : find a = find b) :
    ConnectedComponents.AddEdge find x y a = ConnectedComponents.AddEdge find x y b := by
  unfold ConnectedComponents.AddEdge
  simp only [h]

/-- After `AddEdge x y`, the views `x` and `y` share a representative. -/
theorem AddEdge_endpoints (find : ViewId → ViewId) (x y : ViewId) :
    ConnectedComponents.AddEdge find x y x = ConnectedComponents.AddEdge find x y y := by
  unfold ConnectedComponents.AddEdge
  simp

/-- One union step preserves the invariant "same representative iff connected". -/
theorem AddEdge_correct (find : ViewId → ViewId) (keys : List ViewIdPair)
    (h : ∀ a b, find a = find b ↔ Connected keys a b) (x y : ViewId) (a b : ViewId) :
    ConnectedComponents.AddEdge find x y a = ConnectedComponents.AddEdge find x y b ↔
      Connected (keys ++ [(x, y)]) a b := by
  have hmono : ∀ {u v}, Connected keys u v → Connected (keys ++ [(x, y)]) u v := fun huv =>
    Connected_mono (fun e he => List.mem_append_left _ he) huv
  have hxy : Connected (keys ++ [(x, y)]) x y :=
    Relation.EqvGen.rel _ _ (List.mem_append_right _ (List.mem_singleton.mpr rfl))
  constructor
  · intro hab
    unfold ConnectedComponents.AddEdge at hab
    by_cases ha : find a = find y <;> by_cases hb : find b = find y
    · exact hmono ((h a b).1 (ha.trans hb.symm))
    · rw [if_pos ha, if_neg hb] at hab
      exact Relation.EqvGen.trans _ _ _ (hmono ((h a y).1 ha))
        (Relation.EqvGen.trans _ _ _ (Relation.EqvGen.symm _ _ hxy) (hmono ((h x b).1 hab)))
    · rw [if_neg ha, if_pos hb] at hab
      exact Relation.EqvGen.trans _ _ _ (hmono ((h a x).1 hab))
        (Relation.EqvGen.trans _ _ _ hxy (hmono ((h y b).1 hb.symm)))
    · rw [if_neg ha, if_neg hb] at hab
      exact hmono ((h a b).1 hab)
  · intro hab
    induction hab with
    | rel u v huv =>
      rcases List.mem_append.1 huv with hl | hr
      · exact AddEdge_congr find x y u v ((h u v).2 (Relation.EqvGen.rel _ _ hl))
      · have := List.mem_singleton.1 hr
        cases this
        exact AddEdge_endpoints find x y
    | refl u => rfl
    | symm u v _ ih => exact ih.symm
    | trans u v w _ _ ih1 ih2 => exact ih1.trans ih2

/-- The representative function built from the keys decides connectivity. -/
theorem Extract_correct (keys : List ViewIdPair) (a b : ViewId) :
    ConnectedComponents.Extract keys a = ConnectedComponents.Extract keys b ↔
      Connected keys a b := by
  induction keys using List.reverseRecOn generalizing a b with
  | nil =>
    show a = b ↔ _
    constructor
    · intro h; rw [h]; exact Relation.EqvGen.refl _
    · intro h
      induction h with
      | rel u v huv => exact absurd huv (List.not_mem_nil _)
      | refl u => rfl
      | symm u v _ ih => exact ih.symm
      | trans u v w _ _ ih1 ih2 => exact ih1.trans ih2
  | append_singleton l e ih =>
    obtain ⟨x, y⟩ := e
    have : ConnectedComponents.Extract (l ++ [(x, y)]) =
        ConnectedComponents.AddEdge (ConnectedComponents.Extract l) x y := by
      unfold ConnectedComponents.Extract
      rw [List.foldl_append]
      rfl
    rw [this]
    exact AddEdge_correct _ l ih x y a b

/-- The two endpoints of a key share a representative. -/
theorem Extract_edge (keys : List ViewIdPair) (e : ViewIdPair) (he : e ∈ keys) :
    ConnectedComponents.Extract keys e.1 = ConnectedComponents.Extract keys e.2 :=
  (Extract_correct keys e.1 e.2).2 (Relation.EqvGen.rel _ _ he)


/-- The search started from a candidate `r0` returns a candidate at least as large
as `r0` and as the component of every scanned key. -/
theorem largestComponent_some (find : ViewId → ViewId) (keys l : List ViewIdPair) (r0 : ViewId) :
    ∃ r, l.foldl (largestComponentStep find keys) (some r0) = some r ∧
      (r = r0 ∨ ∃ e ∈ l, r = find e.1) ∧
      componentSize find keys r0 ≤ componentSize find keys r ∧
      ∀ e ∈ l, componentSize find keys (find e.1) ≤ componentSize find keys r := by
  induction l generalizing r0 with
  | nil => exact ⟨r0, rfl, Or.inl rfl, le_refl _, fun e he => absurd he (List.not_mem_nil _)⟩
  | cons e l ih =>
    rw [List.foldl_cons]
    by_cases hlt : componentSize find keys r0 < componentSize find keys (find e.1)
    · have hstep : largestComponentStep find keys (some r0) e = some (find e.1) := by
        unfold largestComponentStep; simp only [if_pos hlt]
      rw [hstep]
      obtain ⟨r, hr, hsrc, hge, hall⟩ := ih (find e.1)
      refine ⟨r, hr, ?_, le_trans hlt.le hge, ?_⟩
      · rcases hsrc with h | ⟨e', he', h⟩
        · exact Or.inr ⟨e, List.mem_cons_self _ _, h⟩
        · exact Or.inr ⟨e', List.mem_cons_of_mem _ he', h⟩
      · intro e' he'
        rcases List.mem_cons.1 he' with h | h
        · rw [h]; exact hge
        · exact hall e' h
    · have hstep : largestComponentStep find keys (some r0) e = some r0 := by
        unfold largestComponentStep; simp only [if_neg hlt]
      rw [hstep]
      obtain ⟨r, hr, hsrc, hge, hall⟩ := ih r0
      refine ⟨r, hr, ?_, hge, ?_⟩
      · rcases hsrc with h | ⟨e', he', h⟩
        · exact Or.inl h
        · exact Or.inr ⟨e', List.mem_cons_of_mem _ he', h⟩
      · intro e' he'
        rcases List.mem_cons.1 he' with h | h
        · rw [h]; exact le_trans (not_lt.1 hlt) hge
        · exact hall e' h

/-- No edge, no component. -/
theorem largestComponent_nil (find : ViewId → ViewId) : largestComponent find [] = none := rfl

/-- On a non-empty key list the search returns the representative of some key,
with a maximal tally. -/
theorem largestComponent_cons (find : ViewId → ViewId) (e : ViewIdPair) (l : List ViewIdPair) :
    ∃ r, largestComponent find (e :: l) = some r ∧ (∃ e' ∈ e :: l, r = find e'.1) ∧
      ∀ e' ∈ e :: l, componentSize find (e :: l) (find e'.1) ≤ componentSize find (e :: l) r := by
  obtain ⟨r, hr, hsrc, hge, hall⟩ := largestComponent_some find (e :: l) l (find e.1)
  refine ⟨r, hr, ?_, ?_⟩
  · rcases hsrc with h | ⟨e', he', h⟩
    · exact ⟨e, List.mem_cons_self _ _, h⟩
    · exact ⟨e', List.mem_cons_of_mem _ he', h⟩
  · intro e' he'
    rcases List.mem_cons.1 he' with h | h
    · rw [h]; exact hge
    · exact hall e' h

/-- The tally of a representative counts the entries of the map in its component. -/
theorem componentSize_map {TwoViewInfo : Type} (find : ViewId → ViewId)
    (view_pairs : List (ViewIdPair × TwoViewInfo)) (root : ViewId) :
    componentSize find (view_pairs.map Prod.fst) root =
      (view_pairs.filter (fun e => find e.1.1 = root)).length := by
  unfold componentSize
  rw [List.countP_map, List.countP_eq_length_filter]
  rfl

/-- The filter keeps exactly the entries of one component, described through
the representative function. -/
theorem RemoveDisconnectedViewPairs_spec {TwoViewInfo : Type}
    (view_pairs : List (ViewIdPair × TwoViewInfo)) (hne : view_pairs ≠ []) :
    ∃ c : ViewId,
      RemoveDisconnectedViewPairs view_pairs =
        view_pairs.filter (fun e =>
          ConnectedComponents.Extract (view_pairs.map Prod.fst) e.1.1 =
            ConnectedComponents.Extract (view_pairs.map Prod.fst) c) ∧
      (∃ e ∈ view_pairs, e.1.1 = c) ∧
      ∀ c' : ViewId,
        (view_pairs.filter (fun e =>
          ConnectedComponents.Extract (view_pairs.map Prod.fst) e.1.1 =
            ConnectedComponents.Extract (view_pairs.map Prod.fst) c')).length ≤
        (RemoveDisconnectedViewPairs view_pairs).length := by
  obtain ⟨e0, rest, rfl⟩ := List.exists_cons_of_ne_nil hne
  set keys := (e0 :: rest).map Prod.fst with hkeys
  set find := ConnectedComponents.Extract keys with hfind
  obtain ⟨r, hr, ⟨k, hk, hrk⟩, hmax⟩ := largestComponent_cons find e0.1 (rest.map Prod.fst)
  have hkeys' : keys = e0.1 :: rest.map Prod.fst := by rw [hkeys, List.map_cons]
  rw [← hkeys'] at hr hk hmax
  obtain ⟨ek, hek, hekk⟩ := List.mem_map.1 hk
  have hres : RemoveDisconnectedViewPairs (e0 :: rest) =
      (e0 :: rest).filter (fun e => find e.1.1 = find ek.1.1) := by
    unfold RemoveDisconnectedViewPairs
    simp only [← hkeys, ← hfind, hr]
    apply List.filter_congr
    intro e he
    have hedge : find e.1.1 = find e.1.2 :=
      Extract_edge keys e.1 (List.mem_map.2 ⟨e, he, rfl⟩)
    rw [hrk, ← hekk]
    exact decide_eq_decide.2 (by rw [← hedge]; exact and_self_iff)
  refine ⟨ek.1.1, hres, ⟨ek, hek, rfl⟩, ?_⟩
  intro c'
  rw [hres]
  by_cases hex : ∃ e ∈ e0 :: rest, find e.1.1 = find c'
  · obtain ⟨e, he, hec⟩ := hex
    have h1 := hmax e.1 (List.mem_map.2 ⟨e, he, rfl⟩)
    rw [hkeys, componentSize_map, componentSize_map] at h1
    rw [hrk, ← hekk, hec] at h1
    exact h1
  · have : (e0 :: rest).filter (fun e => find e.1.1 = find c') = [] := by
      rw [List.filter_eq_nil_iff]
      intro e he
      simp only [decide_eq_true_eq]
      exact fun h => hex ⟨e, he, h⟩
    rw [this]
    exact Nat.zero_le _


/-- Connectivity is symmetric. -/
theorem Connected_symm {keys : List ViewIdPair} {a b : ViewId} (h : Connected keys a b) :
    Connected keys b a :=
  Relation.EqvGen.symm _ _ h


/-- The test `TwoConnectedComponents`: the 3-edge component survives. -/
theorem RemoveDisconnectedViewPairs_two_components {TwoViewInfo : Type} (info : TwoViewInfo) :
    RemoveDisconnectedViewPairs
        [((0, 1), info), ((1, 2), info), ((2, 3), info), ((5, 6), info), ((6, 7), info)] =
      [((0, 1), info), ((1, 2), info), ((2, 3), info)] := by
  have hroot : largestComponent
      (ConnectedComponents.Extract [(0, 1), (1, 2), (2, 3), (5, 6), (6, 7)])
      [(0, 1), (1, 2), (2, 3), (5, 6), (6, 7)] = some 0 := by decide
  have hfind : ∀ v, v < 8 →
      ConnectedComponents.Extract [(0, 1), (1, 2), (2, 3), (5, 6), (6, 7)] v =
        if v < 4 then 0 else if v = 4 then 4 else 5 := by decide
  simp only [RemoveDisconnectedViewPairs, List.map, hroot, List.filter]
  simp [hfind]

/-- The test `ThreeConnectedComponents`: the 3-edge component survives. -/
theorem RemoveDisconnectedViewPairs_three_components {TwoViewInfo : Type} (info : TwoViewInfo) :
    RemoveDisconnectedViewPairs
        [((0, 1), info), ((1, 2), info), ((2, 3), info), ((5, 6), info), ((7, 8), info)] =
      [((0, 1), info), ((1, 2), info), ((2, 3), info)] := by
  have hroot : largestComponent
      (ConnectedComponents.Extract [(0, 1), (1, 2), (2, 3), (5, 6), (7, 8)])
      [(0, 1), (1, 2), (2, 3), (5, 6), (7, 8)] = some 0 := by decide
  have hfind : ∀ v, v < 9 →
      ConnectedComponents.Extract [(0, 1), (1, 2), (2, 3), (5, 6), (7, 8)] v =
        if v < 4 then 0 else if v = 4 then 4 else if v < 7 then 5 else 7 := by decide
  simp only [RemoveDisconnectedViewPairs, List.map, hroot, List.filter]
  simp [hfind]

/-- C10. After `RemoveDisconnectedViewPairs` the remaining entries are exactly
the input entries whose two endpoints lie in one connected component `c` of
the graph implied by the keys (membership, in the input order), and that
component is a largest one: no family of input entries lying in a single
component is longer than the result.  For the inputs
`{(0,1),(1,2),(2,3),(5,6),(6,7)}` and `{(0,1),(1,2),(2,3),(5,6),(7,8)}`
exactly the entries `(0,1),(1,2),(2,3)` remain. -/
theorem filter_keeps_largest_component {TwoViewInfo : Type}
    (view_pairs : List (ViewIdPair × TwoViewInfo)) (info : TwoViewInfo) :
    (∃ c : ViewId,
      (∀ e, e ∈ RemoveDisconnectedViewPairs view_pairs ↔
        e ∈ view_pairs ∧ Connected (view_pairs.map Prod.fst) c e.1.1 ∧
          Connected (view_pairs.map Prod.fst) c e.1.2) ∧
      (RemoveDisconnectedViewPairs view_pairs).Sublist view_pairs ∧
      (∀ (c' : ViewId) (l : List (ViewIdPair × TwoViewInfo)), l.Sublist view_pairs →
        (∀ e ∈ l, Connected (view_pairs.map Prod.fst) c' e.1.1 ∧
          Connected (view_pairs.map Prod.fst) c' e.1.2) →
        l.length ≤ (RemoveDisconnectedViewPairs view_pairs).length)) ∧
    RemoveDisconnectedViewPairs
        [((0, 1), info), ((1, 2), info), ((2, 3), info), ((5, 6), info), ((6, 7), info)] =
      [((0, 1), info), ((1, 2), info), ((2, 3), info)] ∧
    RemoveDisconnectedViewPairs
        [((0, 1), info), ((1, 2), info), ((2, 3), info), ((5, 6), info), ((7, 8), info)] =
      [((0, 1), info), ((1, 2), info), ((2, 3), info)] := by
  refine ⟨?_, RemoveDisconnectedViewPairs_two_components info,
    RemoveDisconnectedViewPairs_three_components info⟩
  by_cases hne : view_pairs = []
  · subst hne
    refine ⟨0, ?_, List.Sublist.refl _, ?_⟩
    · intro e
      constructor
      · intro h; exact absurd h (List.not_mem_nil _)
      · intro h; exact absurd h.1 (List.not_mem_nil _)
    · intro c' l hl _
      rw [List.sublist_nil.1 hl]
      exact Nat.zero_le _
  · obtain ⟨c, hres, _, hmax⟩ := RemoveDisconnectedViewPairs_spec view_pairs hne
    refine ⟨c, ?_, ?_, ?_⟩
    · intro e
      rw [hres, List.mem_filter, decide_eq_true_eq, Extract_correct]
      constructor
      · rintro ⟨he, hc⟩
        have hedge : Connected (view_pairs.map Prod.fst) e.1.1 e.1.2 :=
          Relation.EqvGen.rel _ _ (List.mem_map.2 ⟨e, he, rfl⟩)
        exact ⟨he, (Connected_symm hc), Relation.EqvGen.trans _ _ _ (Connected_symm hc) hedge⟩
      · rintro ⟨he, hc, _⟩
        exact ⟨he, (Connected_symm hc)⟩
    · rw [hres]
      exact List.filter_sublist _
    · intro c' l hl hall
      have hself : l.filter (fun e =>
          ConnectedComponents.Extract (view_pairs.map Prod.fst) e.1.1 =
            ConnectedComponents.Extract (view_pairs.map Prod.fst) c') = l := by
        rw [List.filter_eq_self]
        intro e he
        rw [decide_eq_true_eq, Extract_correct]
        exact Connected_symm (hall e he).1
      calc l.length
          = (l.filter (fun e =>
              ConnectedComponents.Extract (view_pairs.map Prod.fst) e.1.1 =
                ConnectedComponents.Extract (view_pairs.map Prod.fst) c')).length := by
            rw [hself]
        _ ≤ (view_pairs.filter (fun e =>
              ConnectedComponents.Extract (view_pairs.map Prod.fst) e.1.1 =
                ConnectedComponents.Extract (view_pairs.map Prod.fst) c')).length :=
            (hl.filter _).length_le
        _ ≤ (RemoveDisconnectedViewPairs view_pairs).length := hmax c'


/-- The filter returns a sublist of its input: it only removes entries. -/
theorem RemoveDisconnectedViewPairs_sublist {TwoViewInfo : Type}
    (view_pairs : List (ViewIdPair × TwoViewInfo)) :
    (RemoveDisconnectedViewPairs view_pairs).Sublist view_pairs := by
  unfold RemoveDisconnectedViewPairs
  simp only []
  split
  · exact List.Sublist.refl _
  · exact List.filter_sublist _

/-- A map all of whose entries start in one component is left unchanged. -/
theorem RemoveDisconnectedViewPairs_of_connected {TwoViewInfo : Type}
    (view_pairs : List (ViewIdPair × TwoViewInfo))
    (h : ∀ e ∈ view_pairs, ∀ e' ∈ view_pairs,
      Connected (view_pairs.map Prod.fst) e.1.1 e'.1.1) :
    RemoveDisconnectedViewPairs view_pairs = view_pairs := by
  by_cases hne : view_pairs = []
  · subst hne; rfl
  · obtain ⟨c, hres, ⟨ec, hec, hc⟩, _⟩ := RemoveDisconnectedViewPairs_spec view_pairs hne
    rw [hres, List.filter_eq_self]
    intro e he
    rw [decide_eq_true_eq, Extract_correct, ← hc]
    exact h e he ec hec

/-- Inside the component of `c`, connectivity only needs the keys that the
filter retains. -/
theorem Connected_in_component {TwoViewInfo : Type}
    (view_pairs : List (ViewIdPair × TwoViewInfo)) (c a b : ViewId)
    (hab : Connected (view_pairs.map Prod.fst) a b)
    (hca : Connected (view_pairs.map Prod.fst) c a) :
    Connected ((view_pairs.filter (fun e =>
      ConnectedComponents.Extract (view_pairs.map Prod.fst) e.1.1 =
        ConnectedComponents.Extract (view_pairs.map Prod.fst) c)).map Prod.fst) a b := by
  induction hab with
  | rel u v huv =>
    obtain ⟨e, he, hek⟩ := List.mem_map.1 huv
    apply Relation.EqvGen.rel
    apply List.mem_map.2
    refine ⟨e, List.mem_filter.2 ⟨he, ?_⟩, hek⟩
    rw [decide_eq_true_eq, Extract_correct, hek]
    exact Connected_symm hca
  | refl u => exact Relation.EqvGen.refl _
  | symm u v huv ih =>
    exact Relation.EqvGen.symm _ _
      (ih (Relation.EqvGen.trans _ _ _ hca (Relation.EqvGen.symm _ _ huv)))
  | trans u v w huv _ ih1 ih2 =>
    exact Relation.EqvGen.trans _ _ _ (ih1 hca) (ih2 (Relation.EqvGen.trans _ _ _ hca huv))

/-- The filter is idempotent (shared form). -/
theorem RemoveDisconnectedViewPairs_idem {TwoViewInfo : Type}
    (view_pairs : List (ViewIdPair × TwoViewInfo)) :
    RemoveDisconnectedViewPairs (RemoveDisconnectedViewPairs view_pairs) =
      RemoveDisconnectedViewPairs view_pairs := by
  by_cases hne : view_pairs = []
  · subst hne; rfl
  · obtain ⟨c, hres, _, _⟩ := RemoveDisconnectedViewPairs_spec view_pairs hne
    rw [hres]
    apply RemoveDisconnectedViewPairs_of_connected
    intro e he e' he'
    have h1 := (List.mem_filter.1 he).2
    have h2 := (List.mem_filter.1 he').2
    rw [decide_eq_true_eq, Extract_correct] at h1 h2
    exact Connected_in_component view_pairs c e.1.1 e'.1.1
      (Relation.EqvGen.trans _ _ _ h1 (Connected_symm h2)) (Connected_symm h1)

theorem three_chain_connected : GraphConnected [(0, 1), (1, 2), (2, 3)] := by
  have hfind : ∀ v, v < 4 →
      ConnectedComponents.Extract [(0, 1), (1, 2), (2, 3)] v = 0 := by decide
  have hview : ∀ v, IsView [(0, 1), (1, 2), (2, 3)] v → v < 4 := by
    rintro v ⟨e, he, hv⟩
    simp only [List.mem_cons, List.mem_singleton, List.not_mem_nil, or_false] at he
    rcases he with rfl | rfl | rfl <;> rcases hv with rfl | rfl <;> decide
  intro a b ha hb
  rw [← Extract_correct, hfind a (hview a ha), hfind b (hview b hb)]

/-- C11. A view-pair map whose implied graph is connected is left unchanged by
`RemoveDisconnectedViewPairs`: the same entries (keys and `TwoViewInfo`
values) in the same number; for `{(0,1),(1,2),(2,3)}` the size stays 3. -/
theorem connected_graph_unchanged {TwoViewInfo : Type}
    (view_pairs : List (ViewIdPair × TwoViewInfo)) (info : TwoViewInfo)
    (h_connected : GraphConnected (view_pairs.map Prod.fst)) :
    RemoveDisconnectedViewPairs view_pairs = view_pairs ∧
    (RemoveDisconnectedViewPairs view_pairs).length = view_pairs.length ∧
    (RemoveDisconnectedViewPairs [((0, 1), info), ((1, 2), info), ((2, 3), info)]).length = 3 := by
  have hchain : ∀ vp : List (ViewIdPair × TwoViewInfo), GraphConnected (vp.map Prod.fst) →
      RemoveDisconnectedViewPairs vp = vp := by
    intro vp hvp
    apply RemoveDisconnectedViewPairs_of_connected
    intro e he e' he'
    exact hvp e.1.1 e'.1.1 ⟨e.1, List.mem_map.2 ⟨e, he, rfl⟩, Or.inl rfl⟩
      ⟨e'.1, List.mem_map.2 ⟨e', he', rfl⟩, Or.inl rfl⟩
  have hall := hchain view_pairs h_connected
  refine ⟨hall, by rw [hall], ?_⟩
  rw [hchain [((0, 1), info), ((1, 2), info), ((2, 3), info)] three_chain_connected]
  rfl

/-- Instance of C11 at the map `{(0,1),(1,2),(2,3)}`. -/
theorem connected_graph_unchanged_witness :
    GraphConnected ([((0, 1), ()), ((1, 2), ()), ((2, 3), ())].map Prod.fst) ∧
    RemoveDisconnectedViewPairs [((0, 1), ()), ((1, 2), ()), ((2, 3), ())] =
      [((0, 1), ()), ((1, 2), ()), ((2, 3), ())] :=
  ⟨three_chain_connected,
   (connected_graph_unchanged [((0, 1), ()), ((1, 2), ()), ((2, 3), ())] ()
      three_chain_connected).1⟩

/-- C12. The graph filter is idempotent: applying
`RemoveDisconnectedViewPairs` twice gives the same map as applying it once. -/
theorem filter_idempotent {TwoViewInfo : Type}
    (view_pairs : List (ViewIdPair × TwoViewInfo)) :
    RemoveDisconnectedViewPairs (RemoveDisconnectedViewPairs view_pairs) =
      RemoveDisconnectedViewPairs view_pairs :=
  RemoveDisconnectedViewPairs_idem view_pairs

/-- C13. The graph filter only removes: the result is a sublist of the input
entries (so the keys after are among the keys before and every surviving key
keeps its `TwoViewInfo`), every output entry is an input entry, and every
view of the output graph is a view of the input graph. -/
theorem filter_only_removes {TwoViewInfo : Type}
    (view_pairs : List (ViewIdPair × TwoViewInfo)) :
    (RemoveDisconnectedViewPairs view_pairs).Sublist view_pairs ∧
    ((RemoveDisconnectedViewPairs view_pairs).map Prod.fst).Sublist (view_pairs.map Prod.fst) ∧
    (∀ e ∈ RemoveDisconnectedViewPairs view_pairs, e ∈ view_pairs) ∧
    (∀ v, IsView ((RemoveDisconnectedViewPairs view_pairs).map Prod.fst) v →
      IsView (view_pairs.map Prod.fst) v) := by
  have hsub := RemoveDisconnectedViewPairs_sublist view_pairs
  refine ⟨hsub, hsub.map _, fun e he => hsub.subset he, ?_⟩
  rintro v ⟨k, hk, hv⟩
  exact ⟨k, (hsub.map Prod.fst).subset hk, hv⟩

/-- C14. On the empty view-pair map the graph filter returns (it is a total
function, there is no error outcome) and the map stays empty. -/
theorem filter_empty_map (TwoViewInfo : Type) :
    RemoveDisconnectedViewPairs ([] : List (ViewIdPair × TwoViewInfo)) = [] :=
  rfl

/-! ## Theorems: position estimator and model constants -/

namespace LeastUnsquaredDeviationPositionEstimator

/-- The reweighting loop starts at most `remaining` further rounds. -/
theorem ReweightedIterations_rounds {TwoViewInfo Orientation Positions Problem Weights : Type}
    (numerics : Numerics TwoViewInfo Orientation Positions Problem Weights)
    (problem : Problem) (criterion : ℚ) (remaining : Nat) (current : Positions) (rounds : Nat) :
    (ReweightedIterations numerics problem criterion remaining current rounds).reweighted_rounds
      ≤ rounds + remaining := by
  induction remaining generalizing current rounds with
  | zero => exact le_refl _
  | succ n ih =>
    unfold ReweightedIterations
    split
    · show rounds + 1 ≤ rounds + (n + 1)
      omega
    · split
      · show rounds + 1 ≤ rounds + (n + 1)
        omega
      · rename_i next _ _
        have := ih next (rounds + 1)
        omega

/-- A loop that stopped in `IterationLimitReached` used up all its rounds. -/
theorem ReweightedIterations_limit {TwoViewInfo Orientation Positions Problem Weights : Type}
    (numerics : Numerics TwoViewInfo Orientation Positions Problem Weights)
    (problem : Problem) (criterion : ℚ) (remaining : Nat) (current : Positions) (rounds : Nat)
    (h : (ReweightedIterations numerics problem criterion remaining current rounds).stopped_in
      = State.IterationLimitReached) :
    (ReweightedIterations numerics problem criterion remaining current rounds).reweighted_rounds
      = rounds + remaining := by
  induction remaining generalizing current rounds with
  | zero => rfl
  | succ n ih =>
    unfold ReweightedIterations at h ⊢
    split at h
    · simp at h
    · split at h
      · simp at h
      · rename_i hsolve hchange
        simp only [hsolve, hchange, if_false]
        have := ih _ (rounds + 1) h
        omega

/-- C15. `EstimatePositions` reports failure (`false`) whenever `view_pairs`
has zero entries or contains only self-referential pairs. -/
theorem estimate_fails_on_insufficient_data
    {TwoViewInfo Orientation Positions Problem Weights : Type}
    (options : Options)
    (numerics : Numerics TwoViewInfo Orientation Positions Problem Weights)
    (view_pairs : List (ViewIdPair × TwoViewInfo))
    (orientation : List (ViewId × Orientation)) (positions : Positions)
    (h : view_pairs = [] ∨ ∀ e ∈ view_pairs, e.1.1 = e.1.2) :
    (EstimatePositions options numerics view_pairs orientation positions).success = false := by
  have hmal : MalformedInputGraph view_pairs = true := by
    unfold MalformedInputGraph
    cases view_pairs with
    | nil => rfl
    | cons e rest =>
      rcases h with h | h
      · exact absurd h (List.cons_ne_nil _ _)
      · have he : e.1.1 = e.1.2 := h e (List.mem_cons_self _ _)
        simp [he]
  unfold EstimatePositions
  rw [if_pos hmal]

/-- Instance of C15: a single self-referential pair `(3, 3)`. -/
theorem estimate_fails_on_insufficient_data_witness :
    (([((3, 3), ())] : List (ViewIdPair × Unit)) = [] ∨
      ∀ e ∈ ([((3, 3), ())] : List (ViewIdPair × Unit)), e.1.1 = e.1.2) ∧
    (EstimatePositions ({} : Options)
      (⟨fun _ => (), fun _ _ => (), fun _ => (), fun _ _ => (), fun _ _ _ => some (),
        fun _ _ => 0⟩ : Numerics Unit Unit Unit Unit Unit)
      ([((3, 3), ())] : List (ViewIdPair × Unit)) ([] : List (ViewId × Unit)) ()).success
      = false :=
  ⟨Or.inr (by simp),
   estimate_fails_on_insufficient_data _ _ _ _ _ (Or.inr (by simp))⟩

/-- C16. For every input and every `Options` value, `EstimatePositions`
performs at most `max_num_reweighted_iterations` outer reweighting rounds,
and when it stops in `IterationLimitReached` it has performed exactly that
many: the outer loop is bounded by the cap and the function is total. -/
theorem reweighted_rounds_bounded
    {TwoViewInfo Orientation Positions Problem Weights : Type}
    (options : Options)
    (numerics : Numerics TwoViewInfo Orientation Positions Problem Weights)
    (view_pairs : List (ViewIdPair × TwoViewInfo))
    (orientation : List (ViewId × Orientation)) (positions : Positions) :
    (EstimatePositions options numerics view_pairs orientation positions).reweighted_rounds
      ≤ options.max_num_reweighted_iterations.toNat ∧
    ((EstimatePositions options numerics view_pairs orientation positions).stopped_in
        = State.IterationLimitReached →
      (EstimatePositions options numerics view_pairs orientation positions).reweighted_rounds
        = options.max_num_reweighted_iterations.toNat) := by
  unfold EstimatePositions
  split
  · exact ⟨Nat.zero_le _, fun h => by simp at h⟩
  · simp only []
    split
    · exact ⟨Nat.zero_le _, fun h => by simp at h⟩
    · rename_i first _
      refine ⟨?_, ?_⟩
      · have := ReweightedIterations_rounds numerics
          (numerics.AddCameraToCameraConstraints view_pairs orientation)
          options.convergence_criterion options.max_num_reweighted_iterations.toNat first 0
        simpa using this
      · intro h
        have := ReweightedIterations_limit numerics _ _ _ first 0 h
        simpa using this

/-- C18. A default-constructed `Options` has `num_threads = 1`,
`max_num_iterations = 400`, `initialize_random_positions = true`,
`max_num_reweighted_iterations = 10` and `convergence_criterion = 1e-4`
(the rational `1/10000`). -/
theorem options_defaults :
    ({} : Options).num_threads = 1 ∧
    ({} : Options).max_num_iterations = 400 ∧
    ({} : Options).initialize_random_positions = true ∧
    ({} : Options).max_num_reweighted_iterations = 10 ∧
    ({} : Options).convergence_criterion = 1 / 10000 := by
  refine ⟨rfl, rfl, rfl, rfl, ?_⟩
  show (1e-4 : ℚ) = 1 / 10000
  norm_num

end LeastUnsquaredDeviationPositionEstimator

/-- C20, the code at the failing input: every tag of
`CameraIntrinsicsModelType` is `INVALID` or `PINHOLE`, so whatever
`FOVCameraModel::Type()` returns is `INVALID` or the tag of the pinhole
model; the enum has no tag of its own for the field-of-view model. -/
theorem no_separate_fov_tag (t : CameraIntrinsicsModelType) :
    t = CameraIntrinsicsModelType.INVALID ∨ t = CameraIntrinsicsModelType.PINHOLE := by
  cases t
  · exact Or.inl rfl
  · exact Or.inr rfl

namespace FOVCameraModel

/-- C19. The field-of-view model has exactly 5 parameters: `kIntrinsicsSize` is
5, the indices `FOCAL_LENGTH`, `ASPECT_RATIO`, `PRINCIPAL_POINT_X`,
`PRINCIPAL_POINT_Y`, `RADIAL_DISTORTION_1` are 0, 1, 2, 3, 4 in that order and
pairwise distinct, and every index of a parameter array that the templated
functions can read lies below `NumParameters()`. -/
theorem parameter_indices_within_vector :
    kIntrinsicsSize = 5 ∧
    FOCAL_LENGTH.val = 0 ∧ ASPECT_RATIO.val = 1 ∧ PRINCIPAL_POINT_X.val = 2 ∧
    PRINCIPAL_POINT_Y.val = 3 ∧ RADIAL_DISTORTION_1.val = 4 ∧
    [FOCAL_LENGTH, ASPECT_RATIO, PRINCIPAL_POINT_X, PRINCIPAL_POINT_Y,
      RADIAL_DISTORTION_1].Nodup ∧
    (∀ i : Fin kIntrinsicsSize, i.val < NumParameters) := by
  refine ⟨rfl, rfl, rfl, rfl, rfl, rfl, by decide, ?_⟩
  intro i
  exact i.isLt

end FOVCameraModel

/-! ## Theorems: distortion bounds and projection -/

namespace FOVCameraModel
open Real

/-- On the main branch the distortion scale factor is positive and the
distorted radius is `atan(2 r tan(omega/2)) / omega`, which is at least
`1e-4` and below `pi / (2 omega)`. -/
theorem DistortPoint_radius (P : Fin kIntrinsicsSize → ℝ) (p : ℝ × ℝ)
    (hω : (kVerySmallNumber : ℝ) ≤ P RADIAL_DISTORTION_1)
    (hπ : P RADIAL_DISTORTION_1 < π)
    (hs : (kVerySmallNumber : ℝ) ≤ p.1 * p.1 + p.2 * p.2) :
    0 < Real.arctan (2 * radius p * Real.tan (P RADIAL_DISTORTION_1 / 2)) /
        (radius p * P RADIAL_DISTORTION_1) ∧
    radius (DistortPoint P p) =
      Real.arctan (2 * radius p * Real.tan (P RADIAL_DISTORTION_1 / 2)) /
        P RADIAL_DISTORTION_1 ∧
    1 / 10000 ≤ radius (DistortPoint P p) := by
  obtain ⟨x, y⟩ := p
  have hr : 1 / 10000 ≤ radius (x, y) := sqrt_lower hs
  have hr0 : 0 < radius (x, y) := by linarith
  have hω0 : 0 < P RADIAL_DISTORTION_1 := by
    have := hω; rw [kVerySmallNumber_real] at this
    linarith [show (0:ℝ) < (1 / 10000) ^ 2 by norm_num]
  have hA := arctan_lower hω hπ hr
  have hA0 : 0 < Real.arctan (2 * radius (x, y) * Real.tan (P RADIAL_DISTORTION_1 / 2)) := by
    have : 0 < P RADIAL_DISTORTION_1 / 10000 := by positivity
    linarith
  have hD : DistortPoint P (x, y) =
      (Real.arctan (2 * radius (x, y) * Real.tan (P RADIAL_DISTORTION_1 / 2)) /
          (radius (x, y) * P RADIAL_DISTORTION_1) * x,
       Real.arctan (2 * radius (x, y) * Real.tan (P RADIAL_DISTORTION_1 / 2)) /
          (radius (x, y) * P RADIAL_DISTORTION_1) * y) :=
    DistortPoint_main P (x, y) hω hs
  have hpos : 0 < Real.arctan (2 * radius (x, y) * Real.tan (P RADIAL_DISTORTION_1 / 2)) /
        (radius (x, y) * P RADIAL_DISTORTION_1) := div_pos hA0 (mul_pos hr0 hω0)
  have hrad : radius (DistortPoint P (x, y)) =
      Real.arctan (2 * radius (x, y) * Real.tan (P RADIAL_DISTORTION_1 / 2)) /
        P RADIAL_DISTORTION_1 := by
    rw [hD, radius_smul, abs_of_pos hpos]
    field_simp
    ring
  refine ⟨hpos, hrad, ?_⟩
  rw [hrad, le_div_iff₀ hω0]
  linarith

/-- C25. For `1e-8 <= omega < pi` and `|p|^2 >= 1e-8`, `DistortPoint p` is a
strictly positive scalar multiple of `p` (the direction is preserved) and its
Euclidean norm is `atan(2 |p| tan(omega/2)) / omega`. -/
theorem distort_positive_multiple (intrinsic_parameters : Fin kIntrinsicsSize → ℝ)
    (p : ℝ × ℝ)
    (h_omega_lo : (1e-8 : ℝ) ≤ intrinsic_parameters RADIAL_DISTORTION_1)
    (h_omega_hi : intrinsic_parameters RADIAL_DISTORTION_1 < Real.pi)
    (h_radius : (1e-8 : ℝ) ≤ p.1 * p.1 + p.2 * p.2) :
    (∃ s : ℝ, 0 < s ∧ DistortPoint intrinsic_parameters p = (s * p.1, s * p.2)) ∧
    radius (DistortPoint intrinsic_parameters p) =
      Real.arctan (2 * radius p * Real.tan (intrinsic_parameters RADIAL_DISTORTION_1 / 2)) /
        intrinsic_parameters RADIAL_DISTORTION_1 := by
  obtain ⟨hpos, hrad, _⟩ :=
    DistortPoint_radius intrinsic_parameters p h_omega_lo h_omega_hi h_radius
  exact ⟨⟨_, hpos, DistortPoint_main intrinsic_parameters p h_omega_lo h_radius⟩, hrad⟩

/-- Instance of C25 at `omega = 1`, `p = (3, 4)`. -/
theorem distort_positive_multiple_witness :
    (1e-8 : ℝ) ≤ intrinsics 1 1 0 0 (1 : ℝ) RADIAL_DISTORTION_1 ∧
    intrinsics 1 1 0 0 (1 : ℝ) RADIAL_DISTORTION_1 < Real.pi ∧
    (1e-8 : ℝ) ≤ ((3 : ℝ), (4 : ℝ)).1 * ((3 : ℝ), (4 : ℝ)).1 +
      ((3 : ℝ), (4 : ℝ)).2 * ((3 : ℝ), (4 : ℝ)).2 ∧
    radius (DistortPoint (intrinsics 1 1 0 0 (1 : ℝ)) ((3 : ℝ), (4 : ℝ))) =
      Real.arctan (2 * radius ((3 : ℝ), (4 : ℝ)) *
          Real.tan (intrinsics 1 1 0 0 (1 : ℝ) RADIAL_DISTORTION_1 / 2)) /
        intrinsics 1 1 0 0 (1 : ℝ) RADIAL_DISTORTION_1 := by
  have h1 : (1e-8 : ℝ) ≤ intrinsics 1 1 0 0 (1 : ℝ) RADIAL_DISTORTION_1 := by
    rw [intrinsics_omega]; norm_num
  have h2 : intrinsics 1 1 0 0 (1 : ℝ) RADIAL_DISTORTION_1 < Real.pi := by
    rw [intrinsics_omega]; linarith [Real.pi_gt_three]
  exact ⟨h1, h2, by norm_num,
    (distort_positive_multiple (intrinsics 1 1 0 0 (1 : ℝ)) ((3 : ℝ), (4 : ℝ)) h1 h2
      (by norm_num)).2⟩

/-- C26. For `1e-8 <= omega < pi` and `|p|^2 >= 1e-8`, the output `q` of
`DistortPoint` satisfies `|p| <= |q|` when `|p| <= 1/2` and always
`|q| < pi / (2 omega)`; moreover `|q|^2 >= 1e-8` and `0 < |q| omega < pi/2`, so
`UndistortPoint q` does not take its identity fallback and
`tan(r_d omega)` is defined (`cos` is positive there) and positive. -/
theorem distorted_radius_bounds (intrinsic_parameters : Fin kIntrinsicsSize → ℝ)
    (p : ℝ × ℝ)
    (h_omega_lo : (1e-8 : ℝ) ≤ intrinsic_parameters RADIAL_DISTORTION_1)
    (h_omega_hi : intrinsic_parameters RADIAL_DISTORTION_1 < Real.pi)
    (h_radius : (1e-8 : ℝ) ≤ p.1 * p.1 + p.2 * p.2) :
    (radius p ≤ 1 / 2 → radius p ≤ radius (DistortPoint intrinsic_parameters p)) ∧
    radius (DistortPoint intrinsic_parameters p) <
      Real.pi / (2 * intrinsic_parameters RADIAL_DISTORTION_1) ∧
    (1e-8 : ℝ) ≤ (DistortPoint intrinsic_parameters p).1 * (DistortPoint intrinsic_parameters p).1 +
      (DistortPoint intrinsic_parameters p).2 * (DistortPoint intrinsic_parameters p).2 ∧
    0 < radius (DistortPoint intrinsic_parameters p) * intrinsic_parameters RADIAL_DISTORTION_1 ∧
    radius (DistortPoint intrinsic_parameters p) * intrinsic_parameters RADIAL_DISTORTION_1
      < Real.pi / 2 ∧
    ¬ (intrinsic_parameters RADIAL_DISTORTION_1 < (1e-8 : ℝ) ∨
        (DistortPoint intrinsic_parameters p).1 * (DistortPoint intrinsic_parameters p).1 +
        (DistortPoint intrinsic_parameters p).2 * (DistortPoint intrinsic_parameters p).2
          < (1e-8 : ℝ)) ∧
    0 < Real.cos (radius (DistortPoint intrinsic_parameters p) *
        intrinsic_parameters RADIAL_DISTORTION_1) ∧
    0 < Real.tan (radius (DistortPoint intrinsic_parameters p) *
        intrinsic_parameters RADIAL_DISTORTION_1) := by
  obtain ⟨_, hrad, hlow⟩ :=
    DistortPoint_radius intrinsic_parameters p h_omega_lo h_omega_hi h_radius
  set ω := intrinsic_parameters RADIAL_DISTORTION_1 with hωdef
  have hω0 : 0 < ω := by linarith [show (0:ℝ) < 1e-8 by norm_num]
  have hr : 1 / 10000 ≤ radius p := sqrt_lower h_radius
  set A := Real.arctan (2 * radius p * Real.tan (ω / 2)) with hAdef
  have hAlt : A < π / 2 := Real.arctan_lt_pi_div_two _
  have hq0 : 0 < radius (DistortPoint intrinsic_parameters p) := by linarith
  have hmul : radius (DistortPoint intrinsic_parameters p) * ω = A := by
    rw [hrad]; field_simp
  have hsq : (1e-8 : ℝ) ≤
      (DistortPoint intrinsic_parameters p).1 * (DistortPoint intrinsic_parameters p).1 +
      (DistortPoint intrinsic_parameters p).2 * (DistortPoint intrinsic_parameters p).2 := by
    have hnn : 0 ≤ (DistortPoint intrinsic_parameters p).1 * (DistortPoint intrinsic_parameters p).1 +
      (DistortPoint intrinsic_parameters p).2 * (DistortPoint intrinsic_parameters p).2 := by
      nlinarith [mul_self_nonneg (DistortPoint intrinsic_parameters p).1,
        mul_self_nonneg (DistortPoint intrinsic_parameters p).2]
    have hsqrt : radius (DistortPoint intrinsic_parameters p) ^ 2 =
        (DistortPoint intrinsic_parameters p).1 * (DistortPoint intrinsic_parameters p).1 +
        (DistortPoint intrinsic_parameters p).2 * (DistortPoint intrinsic_parameters p).2 :=
      Real.sq_sqrt hnn
    rw [← hsqrt]
    have : (1e-8 : ℝ) = (1 / 10000) ^ 2 := by norm_num
    rw [this]
    exact pow_le_pow_left₀ (by norm_num) hlow 2
  have hA0 : 0 < A := by rw [← hmul]; exact mul_pos hq0 hω0
  refine ⟨?_, ?_, hsq, ?_, ?_, ?_, ?_, ?_⟩
  · intro hhalf
    have hk := mul_le_arctan_mul_tan (k := 2 * radius p) (x := ω / 2)
      (by linarith) (by linarith) (by linarith) (by linarith)
    rw [hrad, le_div_iff₀ hω0]
    have : 2 * radius p * (ω / 2) = radius p * ω := by ring
    linarith
  · rw [hrad, div_lt_div_iff₀ hω0 (by positivity)]
    nlinarith
  · rw [hmul]; exact hA0
  · rw [hmul]; exact hAlt
  · rw [not_or, not_lt, not_lt]
    exact ⟨h_omega_lo, hsq⟩
  · rw [hmul]
    exact Real.cos_pos_of_mem_Ioo ⟨by linarith [Real.pi_pos], hAlt⟩
  · rw [hmul]
    exact Real.tan_pos_of_pos_of_lt_pi_div_two hA0 hAlt

/-- Instance of C26 at `omega = 1`, `p = (3, 4)`. -/
theorem distorted_radius_bounds_witness :
    (1e-8 : ℝ) ≤ intrinsics 1 1 0 0 (1 : ℝ) RADIAL_DISTORTION_1 ∧
    intrinsics 1 1 0 0 (1 : ℝ) RADIAL_DISTORTION_1 < Real.pi ∧
    (1e-8 : ℝ) ≤ ((3 : ℝ), (4 : ℝ)).1 * ((3 : ℝ), (4 : ℝ)).1 +
      ((3 : ℝ), (4 : ℝ)).2 * ((3 : ℝ), (4 : ℝ)).2 ∧
    radius (DistortPoint (intrinsics 1 1 0 0 (1 : ℝ)) ((3 : ℝ), (4 : ℝ))) <
      Real.pi / (2 * intrinsics 1 1 0 0 (1 : ℝ) RADIAL_DISTORTION_1) := by
  have h1 : (1e-8 : ℝ) ≤ intrinsics 1 1 0 0 (1 : ℝ) RADIAL_DISTORTION_1 := by
    rw [intrinsics_omega]; norm_num
  have h2 : intrinsics 1 1 0 0 (1 : ℝ) RADIAL_DISTORTION_1 < Real.pi := by
    rw [intrinsics_omega]; linarith [Real.pi_gt_three]
  exact ⟨h1, h2, by norm_num,
    (distorted_radius_bounds (intrinsics 1 1 0 0 (1 : ℝ)) ((3 : ℝ), (4 : ℝ)) h1 h2
      (by norm_num)).2.1⟩


end FOVCameraModel

/-! ## Theorems: file readers and writers -/

/-- Updating the entry appended last. -/
theorem modifyAt_length_append {α : Type} (f : α → α) (l : List α) (a : α) :
    modifyAt f l.length (l ++ [a]) = l ++ [f a] := by
  induction l with
  | nil => rfl
  | cons b l ih =>
    show b :: modifyAt f l.length (l ++ [a]) = b :: (l ++ [f a])
    rw [ih]

/-- The instance `AddViewUniqueNames` appends whenever it succeeds. -/
theorem AddViewUniqueNames_appends (kInvalidViewId : ViewId) :
    AddViewAppends (AddViewUniqueNames kInvalidViewId) kInvalidViewId := by
  intro reconstruction filename h
  unfold AddViewUniqueNames at h ⊢
  split
  · rename_i hdup
    rw [if_pos hdup] at h
    exact absurd rfl h
  · rfl

/-- The loop of `ReadListsFile` on lines with non-empty names, when no
`CHECK_NE` aborts and successful `AddView` calls append: one view per line, in
order, with the prior of the line. -/
theorem ReadListsFileLoop_views
    (AddView : Reconstruction → String → ViewId × Reconstruction) (kInvalidViewId : ViewId)
    (h_add : AddViewAppends AddView kInvalidViewId)
    (lines : List ListLine) (reconstruction : Reconstruction)
    (h : ∀ line ∈ lines, line.filename.length ≠ 0)
    (h_no_abort : ReadListsFileLoop AddView kInvalidViewId lines reconstruction ≠ none) :
    ReadListsFileLoop AddView kInvalidViewId lines reconstruction =
      some { reconstruction with
        views := reconstruction.views ++
          lines.map (fun line =>
            { Name := line.filename, CameraIntrinsicsPrior := line.expectedPrior }) } := by
  induction lines generalizing reconstruction with
  | nil => simp [ReadListsFileLoop]
  | cons line rest ih =>
    have hline := h line (List.mem_cons_self _ _)
    have hrest : ∀ l ∈ rest, l.filename.length ≠ 0 := fun l hl => h l (List.mem_cons_of_mem _ hl)
    unfold ReadListsFileLoop at h_no_abort ⊢
    rw [if_neg hline] at h_no_abort ⊢
    simp only [] at h_no_abort ⊢
    by_cases hvalid : (AddView reconstruction line.filename).1 ≠ kInvalidViewId
    · rw [if_pos hvalid] at h_no_abort ⊢
      have hadd := h_add reconstruction line.filename hvalid
      rw [hadd] at h_no_abort ⊢
      rcases hexif : line.exif with _ | ⟨temp, value⟩
      · rw [hexif] at h_no_abort
        simp only [ne_eq, not_true_eq_false, if_false] at h_no_abort ⊢
        rw [ih _ hrest h_no_abort]
        simp [ListLine.expectedPrior, hexif]
      · rw [hexif] at h_no_abort
        by_cases hv : value = 0
        · simp only [hv, ne_eq, not_true_eq_false, if_false] at h_no_abort ⊢
          rw [ih _ hrest h_no_abort]
          simp [ListLine.expectedPrior, hexif, hv]
        · simp only [ne_eq, hv, not_false_eq_true, if_true] at h_no_abort ⊢
          rw [ih _ hrest h_no_abort]
          simp [Reconstruction.SetFocalLengthPrior, ListLine.expectedPrior, hexif, hv,
            modifyAt_length_append]
    · rw [if_neg hvalid] at h_no_abort
      exact absurd rfl h_no_abort

/-- C23, counterexample: with an `AddView` that refuses a name already present,
the two-line list file `a.jpg`, `a.jpg` (both lines of the form `name`) makes
the second `AddView` return `kInvalidViewId`, and `ReadListsFile` aborts at
`CHECK_NE` instead of adding one view per line. -/
theorem read_lists_file_abort_counterexample :
    (∀ line ∈ [ListLine.mk "a.jpg" none, ListLine.mk "a.jpg" none],
      line.filename.length ≠ 0) ∧
    (∀ line ∈ [ListLine.mk "a.jpg" none, ListLine.mk "a.jpg" none],
      line.exif = none ∨ ∃ f, line.exif = some (0, f)) ∧
    AddViewAppends (AddViewUniqueNames 4294967295) 4294967295 ∧
    ReadListsFile (AddViewUniqueNames 4294967295) 4294967295
      (some [ListLine.mk "a.jpg" none, ListLine.mk "a.jpg" none]) {} = none := by
  refine ⟨?_, ?_, AddViewUniqueNames_appends _, by decide⟩
  · intro line hl
    simp only [List.mem_cons, List.mem_singleton, List.not_mem_nil, or_false] at hl
    rcases hl with rfl | rfl <;> decide
  · intro line hl
    simp only [List.mem_cons, List.mem_singleton, List.not_mem_nil, or_false] at hl
    rcases hl with rfl | rfl <;> exact Or.inl rfl

/-- C23, amended: for a list file whose lines have the form `name` or
`name 0 f`, when no call of `AddView` returns `kInvalidViewId` (no abort at
`CHECK_NE`) and a successful `AddView` appends the view, `ReadListsFile`
returns `true` having added exactly one view per line, in file order, under
the line's name, and the focal-length prior of a view is set, to `f`, exactly
when its line is `name 0 f` with `f != 0`. -/
theorem read_lists_file_views
    (AddView : Reconstruction → String → ViewId × Reconstruction) (kInvalidViewId : ViewId)
    (lines : List ListLine) (reconstruction : Reconstruction)
    (h_names : ∀ line ∈ lines, line.filename.length ≠ 0)
    (h_form : ∀ line ∈ lines, line.exif = none ∨ ∃ f, line.exif = some (0, f))
    (h_add : AddViewAppends AddView kInvalidViewId)
    (h_no_abort : ReadListsFile AddView kInvalidViewId (some lines) reconstruction ≠ none) :
    ReadListsFile AddView kInvalidViewId (some lines) reconstruction =
      some (true, { reconstruction with
        views := reconstruction.views ++ lines.map (fun line =>
          { Name := line.filename, CameraIntrinsicsPrior := line.expectedPrior }) }) ∧
    (reconstruction.views ++ lines.map (fun line =>
        ({ Name := line.filename, CameraIntrinsicsPrior := line.expectedPrior } : View))).length =
      reconstruction.views.length + lines.length ∧
    (∀ line ∈ lines, ∀ f : ℚ,
      line.expectedPrior.focal_length = some f ↔ (line.exif = some (0, f) ∧ f ≠ 0)) := by
  have hloop_ne : ReadListsFileLoop AddView kInvalidViewId lines reconstruction ≠ none := by
    intro hnone
    apply h_no_abort
    unfold ReadListsFile
    simp only [hnone]
  have hloop := ReadListsFileLoop_views AddView kInvalidViewId h_add lines reconstruction
    h_names hloop_ne
  refine ⟨?_, by rw [List.length_append, List.length_map], ?_⟩
  · unfold ReadListsFile
    simp only [hloop]
  intro line hline f
  unfold ListLine.expectedPrior
  rcases h_form line hline with hnone | ⟨g, hg⟩
  · rw [hnone]
    simp
  · rw [hg]
    by_cases hz : g = 0
    · subst hz
      constructor
      · intro h
        simp at h
      · rintro ⟨h1, h2⟩
        have := (Prod.mk.inj (Option.some.inj h1)).2
        exact absurd this.symm h2
    · constructor
      · intro h
        simp [hz] at h
        subst h
        exact ⟨rfl, hz⟩
      · rintro ⟨h1, _⟩
        have := (Prod.mk.inj (Option.some.inj h1)).2
        subst this
        simp [hz]

/-- Instance of the amended C23: a two-line list file with distinct names, the
second line with focal length 1280. -/
theorem read_lists_file_views_witness :
    (∀ line ∈ [ListLine.mk "a.jpg" none, ListLine.mk "b.jpg" (some (0, 1280))],
      line.filename.length ≠ 0) ∧
    (∀ line ∈ [ListLine.mk "a.jpg" none, ListLine.mk "b.jpg" (some (0, 1280))],
      line.exif = none ∨ ∃ f, line.exif = some (0, f)) ∧
    AddViewAppends (AddViewUniqueNames 4294967295) 4294967295 ∧
    ReadListsFile (AddViewUniqueNames 4294967295) 4294967295
        (some [ListLine.mk "a.jpg" none, ListLine.mk "b.jpg" (some (0, 1280))]) {} ≠ none ∧
    ReadListsFile (AddViewUniqueNames 4294967295) 4294967295
        (some [ListLine.mk "a.jpg" none, ListLine.mk "b.jpg" (some (0, 1280))]) {} =
      some (true, { views :=
        [{ Name := "a.jpg" }, { Name := "b.jpg", CameraIntrinsicsPrior := ⟨some 1280⟩ }] }) := by
  have h1 : ∀ line ∈ [ListLine.mk "a.jpg" none, ListLine.mk "b.jpg" (some (0, 1280))],
      line.filename.length ≠ 0 := by
    intro line hl
    simp only [List.mem_cons, List.mem_singleton, List.not_mem_nil, or_false] at hl
    rcases hl with rfl | rfl <;> decide
  have h2 : ∀ line ∈ [ListLine.mk "a.jpg" none, ListLine.mk "b.jpg" (some (0, 1280))],
      line.exif = none ∨ ∃ f, line.exif = some (0, f) := by
    intro line hl
    simp only [List.mem_cons, List.mem_singleton, List.not_mem_nil, or_false] at hl
    rcases hl with rfl | rfl
    · exact Or.inl rfl
    · exact Or.inr ⟨1280, rfl⟩
  have h3 : ReadListsFile (AddViewUniqueNames 4294967295) 4294967295
      (some [ListLine.mk "a.jpg" none, ListLine.mk "b.jpg" (some (0, 1280))]) {} ≠ none := by
    decide
  refine ⟨h1, h2, AddViewUniqueNames_appends _, h3, ?_⟩
  rw [(read_lists_file_views _ _ _ {} h1 h2 (AddViewUniqueNames_appends _) h3).1]
  simp [ListLine.expectedPrior]

/-- Negating rows 1 and 2 is left multiplication by `diag(1, -1, -1)`. -/
theorem FlipRotation_eq_mul {α : Type} [CommRing α] (rotation : Matrix (Fin 3) (Fin 3) α) :
    FlipRotation rotation = Matrix.diagonal ![1, -1, -1] * rotation := by
  ext r c
  rw [Matrix.diagonal_mul]
  unfold FlipRotation
  fin_cases r <;> simp

/-- C27. The camera position stored by `ReadBundlerFiles`, computed after rows
1 and 2 of `R` and entries 1 and 2 of `t` were negated, equals
`-transpose(R) * t` of the unmodified `R` and `t`. -/
theorem bundler_position_unflipped {α : Type} [CommRing α]
    (rotation : Matrix (Fin 3) (Fin 3) α) (translation : Fin 3 → α) :
    BundlerCameraPosition rotation translation =
      (-(Matrix.transpose rotation)).mulVec translation := by
  ext i
  unfold BundlerCameraPosition FlipRotation FlipTranslation
  simp [Matrix.mulVec, Matrix.dotProduct, Fin.sum_univ_three]
  ring

/-- C28. If the matrix `R` read from the bundle file is a rotation
(`transpose(R) * R = I`, `det R = 1`), the matrix passed to
`SetOrientationFromRotationMatrix`, `R` with rows 1 and 2 negated, is a
rotation too. -/
theorem bundler_rotation_stays_rotation {α : Type} [CommRing α]
    (rotation : Matrix (Fin 3) (Fin 3) α)
    (h_orthogonal : Matrix.transpose rotation * rotation = 1)
    (h_det : rotation.det = 1) :
    Matrix.transpose (BundlerCameraRotation rotation) * BundlerCameraRotation rotation = 1 ∧
    (BundlerCameraRotation rotation).det = 1 := by
  unfold BundlerCameraRotation
  rw [FlipRotation_eq_mul]
  have hD : Matrix.transpose (Matrix.diagonal ![(1 : α), -1, -1]) * Matrix.diagonal ![1, -1, -1]
      = 1 := by
    rw [Matrix.diagonal_transpose, Matrix.diagonal_mul_diagonal]
    ext r c
    fin_cases r <;> fin_cases c <;> simp
  constructor
  · rw [Matrix.transpose_mul, Matrix.mul_assoc, ← Matrix.mul_assoc _ _ rotation, hD,
      Matrix.one_mul, h_orthogonal]
  · rw [Matrix.det_mul, Matrix.det_diagonal, h_det, Fin.prod_univ_three]
    simp

/-- Instance of C28: the identity rotation over the rationals. -/
theorem bundler_rotation_stays_rotation_witness :
    Matrix.transpose (1 : Matrix (Fin 3) (Fin 3) ℚ) * 1 = 1 ∧
    (1 : Matrix (Fin 3) (Fin 3) ℚ).det = 1 ∧
    (BundlerCameraRotation (1 : Matrix (Fin 3) (Fin 3) ℚ)).det = 1 :=
  ⟨by simp, Matrix.det_one,
   (bundler_rotation_stays_rotation (1 : Matrix (Fin 3) (Fin 3) ℚ) (by simp) Matrix.det_one).2⟩


/-- `GatherTracks` appends one point and one color per estimated track. -/
theorem GatherTracks_lengths (reconstruction : Reconstruction) (points colors : List Vector3) :
    (GatherTracks reconstruction points colors).1.length =
      points.length + (reconstruction.tracks.filter (fun track => track.IsEstimated)).length ∧
    (GatherTracks reconstruction points colors).2.length =
      colors.length + (reconstruction.tracks.filter (fun track => track.IsEstimated)).length := by
  unfold GatherTracks
  generalize reconstruction.tracks = tracks
  induction tracks generalizing points colors with
  | nil => simp
  | cons track rest ih =>
    rw [List.foldl_cons]
    cases hest : track.IsEstimated
    · simp only [Bool.not_false, if_true]
      have := ih points colors
      simpa [List.filter_cons, hest] using this
    · simp only [Bool.not_true, Bool.false_eq_true, if_false]
      have := ih (points ++ [hnormalized track.Point]) (colors ++ [((1.0 : ℚ), (1.0 : ℚ), (1.0 : ℚ))])
      simp only [List.length_append, List.length_singleton] at this
      simp only [List.filter_cons, hest, if_true, List.length_cons]
      constructor
      · rw [this.1]; omega
      · rw [this.2]; omega

/-- `GatherCameras` appends one point and one color per estimated view. -/
theorem GatherCameras_lengths (reconstruction : Reconstruction) (points colors : List Vector3) :
    (GatherCameras reconstruction points colors).1.length =
      points.length + (reconstruction.views.filter (fun view => view.IsEstimated)).length ∧
    (GatherCameras reconstruction points colors).2.length =
      colors.length + (reconstruction.views.filter (fun view => view.IsEstimated)).length := by
  unfold GatherCameras
  generalize reconstruction.views = views
  induction views generalizing points colors with
  | nil => simp
  | cons view rest ih =>
    rw [List.foldl_cons]
    cases hest : view.IsEstimated
    · simp only [Bool.not_false, if_true]
      have := ih points colors
      simpa [List.filter_cons, hest] using this
    · simp only [Bool.not_true, Bool.false_eq_true, if_false]
      have := ih (points ++ [view.Position]) (colors ++ [((0.0 : ℚ), (1.0 : ℚ), (0.0 : ℚ))])
      simp only [List.length_append, List.length_singleton] at this
      simp only [List.filter_cons, hest, if_true, List.length_cons]
      constructor
      · rw [this.1]; omega
      · rw [this.2]; omega

/-- The vertex loop stays in range and writes one line per iteration when both
vectors are long enough. -/
theorem WriteVertexLines_in_range (print : Vector3 → String) (points colors : List Vector3)
    (remaining i : Nat) (hp : i + remaining ≤ points.length) (hc : i + remaining ≤ colors.length) :
    ∃ lines, WriteVertexLines print points colors remaining i = some lines ∧
      lines.length = remaining := by
  induction remaining generalizing i with
  | zero => exact ⟨[], rfl, rfl⟩
  | succ n ih =>
    obtain ⟨lines, hlines, hlen⟩ := ih (i + 1) (by omega) (by omega)
    have hpi : i < points.length := by omega
    have hci : i < colors.length := by omega
    refine ⟨(print points[i] ++ " " ++ print colors[i]) :: lines, ?_, by simp [hlen]⟩
    unfold WriteVertexLines
    rw [List.getElem?_eq_getElem hpi, List.getElem?_eq_getElem hci]
    simp only [hlines]

/-- C29. After `GatherTracks` then `GatherCameras`, `points_to_write` and
`colors_to_write` both have length `N`, the number of estimated tracks plus
the number of estimated views; `WritePlyFile` (file name non-empty, file
opened) returns `true` having written the header with `element vertex N`
followed by exactly `N` vertex lines, no index of the write loop being out of
range. -/
theorem ply_vertex_count_consistent (print : Vector3 → String) (ply_file : String)
    (reconstruction : Reconstruction)
    (h_name : 0 < ply_file.length) :
    (GatherCameras reconstruction (GatherTracks reconstruction [] []).1
        (GatherTracks reconstruction [] []).2).1.length =
      (reconstruction.tracks.filter (fun track => track.IsEstimated)).length +
      (reconstruction.views.filter (fun view => view.IsEstimated)).length ∧
    (GatherCameras reconstruction (GatherTracks reconstruction [] []).1
        (GatherTracks reconstruction [] []).2).2.length =
      (reconstruction.tracks.filter (fun track => track.IsEstimated)).length +
      (reconstruction.views.filter (fun view => view.IsEstimated)).length ∧
    ∃ lines : List String,
      WritePlyFile print ply_file true reconstruction =
        some (true,
          PlyHeader ((reconstruction.tracks.filter (fun track => track.IsEstimated)).length +
            (reconstruction.views.filter (fun view => view.IsEstimated)).length) ++ lines) ∧
      lines.length =
        (reconstruction.tracks.filter (fun track => track.IsEstimated)).length +
        (reconstruction.views.filter (fun view => view.IsEstimated)).length := by
  have ht := GatherTracks_lengths reconstruction [] []
  have hc := GatherCameras_lengths reconstruction (GatherTracks reconstruction [] []).1
    (GatherTracks reconstruction [] []).2
  simp only [List.length_nil, Nat.zero_add] at ht
  rw [ht.1] at hc
  rw [ht.2] at hc
  refine ⟨hc.1, hc.2, ?_⟩
  obtain ⟨lines, hlines, hlen⟩ := WriteVertexLines_in_range print
    (GatherCameras reconstruction (GatherTracks reconstruction [] []).1
      (GatherTracks reconstruction [] []).2).1
    (GatherCameras reconstruction (GatherTracks reconstruction [] []).1
      (GatherTracks reconstruction [] []).2).2
    (GatherCameras reconstruction (GatherTracks reconstruction [] []).1
      (GatherTracks reconstruction [] []).2).1.length 0 (by omega) (by rw [hc.1, hc.2]; omega)
  refine ⟨lines, ?_, by rw [hlen, hc.1]⟩
  unfold WritePlyFile
  rw [if_neg (by omega)]
  rw [hc.1] at hlines
  simp only [Bool.not_true, Bool.false_eq_true, if_false, hc.1, hlines]

/-- Instance of C29: one estimated track, one unestimated track, one estimated view. -/
theorem ply_vertex_count_consistent_witness :
    0 < "out.ply".length ∧
    (GatherCameras
        ⟨[{ Name := "a.jpg", IsEstimated := true }], [⟨true, (1, 2, 3, 1)⟩, ⟨false, (0, 0, 0, 1)⟩]⟩
        (GatherTracks
          ⟨[{ Name := "a.jpg", IsEstimated := true }], [⟨true, (1, 2, 3, 1)⟩, ⟨false, (0, 0, 0, 1)⟩]⟩
          [] []).1
        (GatherTracks
          ⟨[{ Name := "a.jpg", IsEstimated := true }], [⟨true, (1, 2, 3, 1)⟩, ⟨false, (0, 0, 0, 1)⟩]⟩
          [] []).2).1.length = 2 :=
  ⟨by decide,
   (ply_vertex_count_consistent (fun _ => "v") "out.ply"
      ⟨[{ Name := "a.jpg", IsEstimated := true }], [⟨true, (1, 2, 3, 1)⟩, ⟨false, (0, 0, 0, 1)⟩]⟩
      (by decide)).1⟩


/-! ## Theorems: reconstruction viewer -/

namespace ViewReconstruction

/-- No callback writes `width` or `height`. -/
theorem Dispatch_size (globals : Globals) (event : Event) :
    (Dispatch globals event).width = globals.width ∧
    (Dispatch globals event).height = globals.height := by
  cases event with
  | ChangeSize w h => exact ⟨rfl, rfl⟩
  | MouseButton button state x y =>
    unfold Dispatch MouseButton
    simp only []
    split_ifs <;> exact ⟨rfl, rfl⟩
  | MouseMove x y =>
    unfold Dispatch MouseMove
    simp only []
    split_ifs <;> exact ⟨rfl, rfl⟩
  | Keyboard key x y =>
    unfold Dispatch Keyboard
    simp only []
    split <;> first | exact ⟨rfl, rfl⟩ | (split_ifs <;> exact ⟨rfl, rfl⟩)
  | RenderScene => exact ⟨rfl, rfl⟩

/-- The window-size globals keep their initial values whatever events arrive. -/
theorem foldl_Dispatch_size (events : List Event) (globals : Globals) :
    (events.foldl Dispatch globals).width = globals.width ∧
    (events.foldl Dispatch globals).height = globals.height := by
  induction events generalizing globals with
  | nil => exact ⟨rfl, rfl⟩
  | cons event rest ih =>
    rw [List.foldl_cons]
    obtain ⟨h1, h2⟩ := ih (Dispatch globals event)
    obtain ⟨h3, h4⟩ := Dispatch_size globals event
    exact ⟨h1.trans h3, h2.trans h4⟩

/-- C30. Whatever events the callbacks have handled, `width` is 1200 and
`height` is 800, so for every `w` and `h`, `ChangeSize(w, h)` passes to
`gluPerspective` the aspect ratio `1.5` and the vertical field of view
`2 * atan(800 / 1600) * 180 / pi` of `GetPerspectiveParams`: the perspective
does not depend on the window size. -/
theorem perspective_independent_of_window (events : List Event) (w h : Int) :
    (glutMainLoop events).width = 1200 ∧
    (glutMainLoop events).height = 800 ∧
    GetPerspectiveParams Real.arctan Real.pi (glutMainLoop events) =
      ((3 / 2 : ℝ), 2 * Real.arctan (800 / 1600) * 180 / Real.pi) ∧
    ChangeSize Real.arctan Real.pi (glutMainLoop events) w h =
      [GLCall.glMatrixMode MatrixMode.GL_PROJECTION,
       GLCall.glLoadIdentity,
       GLCall.glViewport 0 0 w (if h = 0 then 1 else h),
       GLCall.gluPerspective (2 * Real.arctan (800 / 1600) * 180 / Real.pi) (3 / 2 : ℝ)
         0.001 100000.0,
       GLCall.glMatrixMode MatrixMode.GL_MODELVIEW] := by
  obtain ⟨hw, hh⟩ := foldl_Dispatch_size events {}
  have hw' : (glutMainLoop events).width = 1200 := hw
  have hh' : (glutMainLoop events).height = 800 := hh
  have hparams : GetPerspectiveParams Real.arctan Real.pi (glutMainLoop events) =
      ((3 / 2 : ℝ), 2 * Real.arctan (800 / 1600) * 180 / Real.pi) := by
    unfold GetPerspectiveParams
    simp only [hw', hh']
    norm_num
  refine ⟨hw', hh', hparams, ?_⟩
  unfold ChangeSize
  simp only [hparams]

end ViewReconstruction

end theia
